import Mathlib

/-!
Verification of the YouTube-Algorithm-Control extension core.

The development shallowly embeds the two subsystems the specification calls
THE CORE:

* the background service worker (`handleScoreRequest`, `getNextModel`, the
  in-memory score cache and the bounded error log), and
* the content-script filter state machine (`applyFilter`, `reapplyFilters`,
  `resetAllFilters`, `applyPendingState`, `processVideos` and the storage
  change listeners).

Modelling conventions:

* JS `Map` objects become association lists with first-match lookup and
  in-place replacement on `set`, mirroring `Map.get` / `Map.set`.
* Scores are rationals (`Rat`); the source manipulates ordinary JS numbers
  and every claim is about exact threshold comparisons, not rounding.
* `Date.now()` is an input `now : Int` (milliseconds); each top-level entry
  point receives the single instant at which it runs.
* The network transport is an input `transport : Nat → FetchResult`: the
  n-th `fetch` performed by a call observes `transport n`.  A response body
  is modelled at the granularity the code inspects it: the extracted
  candidate text either is absent, fails `JSON.parse`, parses to a
  non-array, or parses to an array of numbers.
* Effects the content script performs (a `chrome.runtime.sendMessage`
  dispatch, an `applyFilter` visibility recomputation) are reified in an
  explicit effect trace so frame properties ("zero dispatch calls") are
  statements about the trace.
-/

namespace YtControl

/-! ## Association-list maps (JS `Map` semantics) -/

/-- `Map.get`: first entry with the given key. -/
def mget {β : Type} : List (String × β) → String → Option β
  | [], _ => none
  | (k', v) :: rest, k => if k' = k then some v else mget rest k

/-- `Map.set`: replace the first entry with the key, else append. -/
def mset {β : Type} : List (String × β) → String → β → List (String × β)
  | [], k, v => [(k, v)]
  | (k', v') :: rest, k, v =>
    if k' = k then (k', v) :: rest else (k', v') :: mset rest k v

theorem mget_mset_self {β : Type} (m : List (String × β)) (k : String) (v : β) :
    mget (mset m k v) k = some v := by
  induction m with
  | nil => simp [mget, mset]
  | cons p rest ih =>
    obtain ⟨k', v'⟩ := p
    by_cases h : k' = k <;> simp [mget, mset, h, ih]

theorem mget_mset_ne {β : Type} (m : List (String × β)) (k k' : String) (v : β)
    (h : k ≠ k') : mget (mset m k v) k' = mget m k' := by
  induction m with
  | nil => simp [mget, mset, h]
  | cons p rest ih =>
    obtain ⟨k₀, v₀⟩ := p
    by_cases h₀ : k₀ = k
    · subst h₀; simp [mget, mset, h]
    · simp only [mset, if_neg h₀, mget]
      by_cases h₁ : k₀ = k' <;> simp [h₁, ih]

theorem mget_mset_isSome {β : Type} (m : List (String × β)) (k k' : String) (v : β)
    (h : (mget m k').isSome) : (mget (mset m k v) k').isSome := by
  by_cases hk : k = k'
  · subst hk; simp [mget_mset_self]
  · rwa [mget_mset_ne m k k' v hk]

/-- Every value of `mset m k v` is a value of `m` or is `v`. -/
theorem mset_values {β : Type} (m : List (String × β)) (k : String) (v : β) :
    ∀ p ∈ mset m k v, p.2 = v ∨ ∃ q ∈ m, p.2 = q.2 := by
  induction m with
  | nil => simp [mset]
  | cons hd rest ih =>
    obtain ⟨k₀, v₀⟩ := hd
    by_cases h : k₀ = k
    · simp only [mset, if_pos h]
      rintro p hp
      rcases List.mem_cons.1 hp with h1 | h1
      · left; rw [h1]
      · right; exact ⟨p, List.mem_cons_of_mem _ h1, rfl⟩
    · simp only [mset, if_neg h]
      rintro p hp
      rcases List.mem_cons.1 hp with h1 | h1
      · right; exact ⟨p, by simp [h1], by rw [h1]⟩
      · rcases ih p h1 with h2 | ⟨q, hq, h2⟩
        · exact Or.inl h2
        · exact Or.inr ⟨q, List.mem_cons_of_mem _ hq, h2⟩

/-! ## Background service worker: data model -/

/-- A video as the scoring request sees it.  The background worker only
reads `title` and `channel` (cache key and prompt line). -/
structure Video where
  title : String
  channel : String
  deriving DecidableEq, Repr

/-- One persisted error-log entry (`logError`); `detail` is truncated to
500 characters before being stored. -/
structure LogEntry where
  time : Int
  kind : String
  status : Option Nat
  detail : String
  deriving DecidableEq, Repr

/-- Mutable module-level state of the background service worker. -/
structure BgState where
  scoreCache : List (String × Rat)
  modelIndex : Nat
  modelLastUsed : List (String × Int)
  errorLog : List LogEntry
  deriving DecidableEq, Repr

/-- The static model pool (`MODELS`). -/
def MODELS : List String :=
  ["gemini-2.5-flash", "gemini-2.5-flash-lite", "gemini-3-flash"]

/-- `PER_MODEL_GAP_MS`: shared per-model cooldown window. -/
def PER_MODEL_GAP_MS : Int := 13000

/-- `modelLastUsed.get(model) || 0`. -/
def luVal (lu : List (String × Int)) (m : String) : Int := (mget lu m).getD 0

/-- Remaining wait of a model: `PER_MODEL_GAP_MS - (now - lastUsed)`. -/
def waitOf (lu : List (String × Int)) (now : Int) (m : String) : Int :=
  PER_MODEL_GAP_MS - (now - luVal lu m)

/-- First loop of `getNextModel`: probe indices `modelIndex + i` for
`i = 0, 1, ...` (`fuel` counts the remaining iterations, starting at
`models.length`). -/
def scanAvail (models : List String) (lu : List (String × Int)) (now : Int)
    (mi : Nat) : Nat → Nat → Option (String × Nat)
  | _, 0 => none
  | i, fuel + 1 =>
    let idx := (mi + i) % models.length
    let model := models.getD idx ""
    if PER_MODEL_GAP_MS ≤ now - luVal lu model then
      some (model, (idx + 1) % models.length)
    else
      scanAvail models lu now mi (i + 1) fuel

/-- Second loop of `getNextModel`: the model that will be available
soonest.  `none` as accumulated best wait plays the role of `Infinity`. -/
def bestSoonestAux (lu : List (String × Int)) (now : Int) :
    List String → String × Option Int → String × Option Int
  | [], acc => acc
  | m :: rest, (bm, bw) =>
    let w := waitOf lu now m
    let upd := match bw with
      | none => true
      | some b => decide (w < b)
    if upd then bestSoonestAux lu now rest (m, some w)
    else bestSoonestAux lu now rest (bm, bw)

/-- Fallback branch of `getNextModel`: initial best is `MODELS[0]` with
infinite best wait. -/
def bestSoonest (models : List String) (lu : List (String × Int)) (now : Int) :
    String :=
  (bestSoonestAux lu now models (models.headD "", none)).1

/-- `getNextModel()`: returns the chosen model and the updated
`modelIndex` (the rotation cursor is only advanced in the available
branch). -/
def getNextModel (models : List String) (mi : Nat) (lu : List (String × Int))
    (now : Int) : String × Nat :=
  match scanAvail models lu now mi 0 models.length with
  | some r => r
  | none => (bestSoonest models lu now, mi)

/-! ### Lemmas about `getNextModel` -/

/-- Soundness of the probing loop: a hit is the first available model in
rotation order, and the cursor advances past it. -/
theorem scanAvail_some (models : List String) (lu : List (String × Int))
    (now : Int) (mi : Nat) :
    ∀ (fuel i : Nat) (m : String) (mi' : Nat),
      scanAvail models lu now mi i fuel = some (m, mi') →
      ∃ j, i ≤ j ∧ j < i + fuel ∧
        m = models.getD ((mi + j) % models.length) "" ∧
        PER_MODEL_GAP_MS ≤ now - luVal lu m ∧
        (∀ j', i ≤ j' → j' < j →
          ¬(PER_MODEL_GAP_MS ≤ now - luVal lu
            (models.getD ((mi + j') % models.length) ""))) ∧
        mi' = ((mi + j) % models.length + 1) % models.length := by
  intro fuel
  induction fuel with
  | zero => intro i m mi' h; simp [scanAvail] at h
  | succ f ih =>
    intro i m mi' h
    simp only [scanAvail] at h
    split at h
    next hav =>
      injection h with h
      injection h with h1 h2
      refine ⟨i, le_refl i, by omega, h1.symm, ?_, fun j' hj1 hj2 => by omega,
        h2.symm⟩
      rw [h1] at hav
      exact hav
    next hav =>
      obtain ⟨j, hj1, hj2, hj3, hj4, hj5, hj6⟩ := ih (i + 1) m mi' h
      refine ⟨j, by omega, by omega, hj3, hj4, ?_, hj6⟩
      intro j' hj'1 hj'2
      rcases Nat.eq_or_lt_of_le hj'1 with hj'3 | hj'3
      · rw [← hj'3]; exact hav
      · exact hj5 j' hj'3 hj'2

/-- Completeness of the probing loop: a miss means nothing in the probed
window is available. -/
theorem scanAvail_none (models : List String) (lu : List (String × Int))
    (now : Int) (mi : Nat) :
    ∀ (fuel i : Nat), scanAvail models lu now mi i fuel = none →
      ∀ j, i ≤ j → j < i + fuel →
        ¬(PER_MODEL_GAP_MS ≤ now - luVal lu
          (models.getD ((mi + j) % models.length) "")) := by
  intro fuel
  induction fuel with
  | zero => intro i _ j h1 h2; omega
  | succ f ih =>
    intro i h j hj1 hj2
    simp only [scanAvail] at h
    split at h
    · exact Option.noConfusion h
    next hav =>
      rcases Nat.eq_or_lt_of_le hj1 with hj3 | hj3
      · rw [← hj3]; exact hav
      · exact ih (i + 1) h j hj3 (by omega)

/-- The fallback fold returns its accumulator or a list element. -/
theorem bestAux_mem (lu : List (String × Int)) (now : Int) :
    ∀ (l : List String) (bm : String) (bw : Option Int),
      (bestSoonestAux lu now l (bm, bw)).1 = bm ∨
      (bestSoonestAux lu now l (bm, bw)).1 ∈ l := by
  intro l
  induction l with
  | nil => intro bm bw; exact Or.inl rfl
  | cons m rest ih =>
    intro bm bw
    simp only [bestSoonestAux]
    split
    · rcases ih m (some (waitOf lu now m)) with h | h
      · exact Or.inr (by rw [h]; exact List.mem_cons_self m rest)
      · exact Or.inr (List.mem_cons_of_mem _ h)
    · rcases ih bm bw with h | h
      · exact Or.inl h
      · exact Or.inr (List.mem_cons_of_mem _ h)

/-- The fallback fold computes a model of minimal remaining wait. -/
theorem bestAux_min (lu : List (String × Int)) (now : Int) :
    ∀ (l : List String) (bm : String) (b : Int),
      waitOf lu now bm ≤ b →
      waitOf lu now (bestSoonestAux lu now l (bm, some b)).1 ≤ b ∧
      ∀ m' ∈ l, waitOf lu now (bestSoonestAux lu now l (bm, some b)).1 ≤
        waitOf lu now m' := by
  intro l
  induction l with
  | nil => intro bm b h; exact ⟨h, by simp⟩
  | cons m rest ih =>
    intro bm b h
    by_cases hw : waitOf lu now m < b
    · have hstep : bestSoonestAux lu now (m :: rest) (bm, some b) =
          bestSoonestAux lu now rest (m, some (waitOf lu now m)) := by
        simp [bestSoonestAux, hw]
      rw [hstep]
      obtain ⟨h1, h2⟩ := ih m (waitOf lu now m) (le_refl _)
      refine ⟨le_trans h1 hw.le, ?_⟩
      intro m' hm'
      rcases List.mem_cons.1 hm' with hm1 | hm1
      · rw [hm1]; exact h1
      · exact h2 m' hm1
    · have hstep : bestSoonestAux lu now (m :: rest) (bm, some b) =
          bestSoonestAux lu now rest (bm, some b) := by
        simp [bestSoonestAux, hw]
      rw [hstep]
      obtain ⟨h1, h2⟩ := ih bm b h
      refine ⟨h1, ?_⟩
      intro m' hm'
      rcases List.mem_cons.1 hm' with hm1 | hm1
      · rw [hm1]; exact le_trans h1 (not_lt.1 hw)
      · exact h2 m' hm1

/-- The fallback choice has minimal remaining wait over the pool. -/
theorem bestSoonest_min (lu : List (String × Int)) (now : Int) (m0 : String)
    (rest : List String) :
    ∀ m' ∈ (m0 :: rest), waitOf lu now (bestSoonest (m0 :: rest) lu now) ≤
      waitOf lu now m' := by
  intro m' hm'
  have hstep : bestSoonest (m0 :: rest) lu now =
      (bestSoonestAux lu now rest (m0, some (waitOf lu now m0))).1 := by
    simp [bestSoonest, bestSoonestAux]
  rw [hstep]
  obtain ⟨h1, h2⟩ := bestAux_min lu now rest m0 (waitOf lu now m0) (le_refl _)
  rcases List.mem_cons.1 hm' with hm1 | hm1
  · rw [hm1]; exact h1
  · exact h2 m' hm1

/-- The fallback choice is in the pool. -/
theorem bestSoonest_mem (lu : List (String × Int)) (now : Int) (m0 : String)
    (rest : List String) :
    bestSoonest (m0 :: rest) lu now ∈ (m0 :: rest) := by
  have hstep : bestSoonest (m0 :: rest) lu now =
      (bestSoonestAux lu now rest (m0, some (waitOf lu now m0))).1 := by
    simp [bestSoonest, bestSoonestAux]
  rw [hstep]
  rcases bestAux_mem lu now rest m0 (some (waitOf lu now m0)) with h | h
  · rw [h]; exact List.mem_cons_self _ _
  · exact List.mem_cons_of_mem _ h

/-- A rotation slot names a pool element. -/
theorem getD_rot_mem (models : List String) (hne : models ≠ []) (idx : Nat)
    (hidx : idx < models.length) : models.getD idx "" ∈ models := by
  rw [List.getD_eq_getElem?_getD, List.getElem?_eq_getElem hidx,
    Option.getD_some]
  exact List.getElem_mem hidx

/-- The selection is total: it always returns a pool member. -/
theorem getNextModel_mem (models : List String) (mi : Nat)
    (lu : List (String × Int)) (now : Int) (hne : models ≠ []) :
    (getNextModel models mi lu now).1 ∈ models := by
  unfold getNextModel
  cases hscan : scanAvail models lu now mi 0 models.length with
  | some r =>
    obtain ⟨j, _, _, hj3, _, _, _⟩ :=
      scanAvail_some models lu now mi models.length 0 r.1 r.2
        (by rw [hscan])
    simp only
    rw [hj3]
    exact getD_rot_mem models hne _
      (Nat.mod_lt _ (List.length_pos.2 hne))
  | none =>
    obtain ⟨m0, rest, hcons⟩ := List.exists_cons_of_ne_nil hne
    subst hcons
    exact bestSoonest_mem lu now m0 rest

/-- If the just-penalized model cannot win the probing loop (its elapsed
time is below the gap) and some other pool member has a strictly earlier
effective last-use, the selection returns a different model. -/
theorem getNextModel_ne (models : List String) (mi : Nat)
    (lu : List (String × Int)) (now : Int) (m : String)
    (h1 : now - luVal lu m < PER_MODEL_GAP_MS)
    (h2 : ∃ m' ∈ models, m' ≠ m ∧ luVal lu m' < luVal lu m) :
    (getNextModel models mi lu now).1 ≠ m := by
  unfold getNextModel
  cases hscan : scanAvail models lu now mi 0 models.length with
  | some r =>
    obtain ⟨j, _, _, _, hj4, _, _⟩ :=
      scanAvail_some models lu now mi models.length 0 r.1 r.2
        (by rw [hscan])
    intro hcontra
    simp only at hcontra
    rw [hcontra] at hj4
    omega
  | none =>
    obtain ⟨m', hm'1, hm'2, hm'3⟩ := h2
    have hne : models ≠ [] := List.ne_nil_of_mem hm'1
    obtain ⟨m0, rest, hcons⟩ := List.exists_cons_of_ne_nil hne
    subst hcons
    intro hcontra
    simp only at hcontra
    have hmin := bestSoonest_min lu now m0 rest m' hm'1
    rw [hcontra] at hmin
    unfold waitOf at hmin
    omega

/-- With a single-model pool the selection always returns that model. -/
theorem getNextModel_singleton (m : String) (mi : Nat)
    (lu : List (String × Int)) (now : Int) :
    (getNextModel [m] mi lu now).1 = m := by
  unfold getNextModel
  cases hscan : scanAvail [m] lu now mi 0 [m].length with
  | some r =>
    obtain ⟨j, _, _, hj3, _, _, _⟩ :=
      scanAvail_some [m] lu now mi [m].length 0 r.1 r.2 (by rw [hscan])
    rw [show (match some r with
      | some r => r
      | none => (bestSoonest [m] lu now, mi)) = r from rfl]
    rw [hj3]
    simp [Nat.mod_one]
  | none => rfl

/-! ## Background service worker: `handleScoreRequest` -/

/-- Cache key: `` `${title}|${channel}|${preferences}` ``. -/
def cacheKey (v : Video) (preferences : String) : String :=
  v.title ++ "|" ++ v.channel ++ "|" ++ preferences

/-- `Math.max(0, Math.min(1, x))`. -/
def clamp (x : Rat) : Rat := max 0 (min 1 x)

/-- What the code observes of a successful HTTP response body:
`json.candidates?.[0]?.content?.parts?.[0]?.text` then fence-stripping and
`JSON.parse` of the cleaned text. -/
inductive Body where
  /-- The candidate text is missing or empty (`!text`). -/
  | noText
  /-- `response.json()` or `JSON.parse` throws with this message. -/
  | parseFail (msg : String)
  /-- The cleaned text parses, but not to an array. -/
  | nonArray
  /-- The cleaned text parses to an array of numbers. -/
  | arr (xs : List Rat)
  deriving DecidableEq, Repr

/-- Outcome of one `fetch`: a rejected promise, or a response with an HTTP
status, its `text()` (used in error details) and its decoded `Body`. -/
inductive FetchResult where
  | failure (msg : String)
  | success (status : Nat) (errText : String) (body : Body)
  deriving DecidableEq, Repr

/-- `response.ok`: status in the 200–299 range. -/
def respOk (status : Nat) : Bool := 200 ≤ status && status < 300

/-- The value `handleScoreRequest` resolves with. -/
inductive ScoreResult where
  | error (msg : String)
  | scores (xs : List (Option Rat))
  deriving DecidableEq, Repr

/-- `logError`: keep the last 9 entries and append the new one
(capacity-10 ring). -/
def logErr (st : BgState) (now : Int) (kind : String) (status : Option Nat)
    (detail : String) : BgState :=
  { st with errorLog :=
      st.errorLog.drop (st.errorLog.length - 9) ++
        [⟨now, kind, status, detail.take 500⟩] }

@[simp] theorem logErr_scoreCache (st : BgState) (now : Int) (kind : String)
    (status : Option Nat) (detail : String) :
    (logErr st now kind status detail).scoreCache = st.scoreCache := rfl

@[simp] theorem logErr_modelIndex (st : BgState) (now : Int) (kind : String)
    (status : Option Nat) (detail : String) :
    (logErr st now kind status detail).modelIndex = st.modelIndex := rfl

@[simp] theorem logErr_modelLastUsed (st : BgState) (now : Int) (kind : String)
    (status : Option Nat) (detail : String) :
    (logErr st now kind status detail).modelLastUsed = st.modelLastUsed := rfl

/-- The cached/uncached split loop of `handleScoreRequest`: returns
(`results` with cached values in place and `null` placeholders, the
uncached videos, their original indices).  `i` is the index of the first
video of the list in the original batch. -/
def splitCached (cache : List (String × Rat)) (preferences : String) :
    List Video → Nat → List (Option Rat) × List Video × List Nat
  | [], _ => ([], [], [])
  | v :: vs, i =>
    let rest := splitCached cache preferences vs (i + 1)
    match mget cache (cacheKey v preferences) with
    | some s => (some s :: rest.1, rest.2.1, rest.2.2)
    | none => (none :: rest.1, v :: rest.2.1, i :: rest.2.2)

/-- The success-path write loop: clamp each score, write it into the cache
under its video's key and into `results` at the video's original index. -/
def applyScores (preferences : String) :
    List Video → List Rat → List Nat → List (String × Rat) →
    List (Option Rat) → List (String × Rat) × List (Option Rat)
  | v :: vs, x :: xs, i :: is, cache, res =>
    let score := clamp x
    applyScores preferences vs xs is
      (mset cache (cacheKey v preferences) score) (res.set i (some score))
  | _, _, _, cache, res => (cache, res)

/-- Decode, validate and commit one OK response body (lines 183–210 of the
worker).  `n` is the number of fetches already performed. -/
def decodeAndFinish (st : BgState) (now : Int) (preferences : String)
    (uncached : List Video) (uncachedIndices : List Nat)
    (results : List (Option Rat)) (body : Body) (n : Nat) :
    ScoreResult × BgState × Nat :=
  match body with
  | .noText => (.error "Empty response from Gemini", st, n)
  | .parseFail msg => (.error msg, logErr st now "Parse error" none msg, n)
  | .nonArray =>
    (.error "Score count mismatch from LLM",
     logErr st now "Score mismatch" none
       ("Got undefined scores for " ++ toString uncached.length ++ " videos"), n)
  | .arr xs =>
    if xs.length ≠ uncached.length then
      (.error "Score count mismatch from LLM",
       logErr st now "Score mismatch" none
         ("Got " ++ toString xs.length ++ " scores for " ++
           toString uncached.length ++ " videos"), n)
    else
      let fill := applyScores preferences uncached xs uncachedIndices
        st.scoreCache results
      (.scores fill.2, { st with scoreCache := fill.1 }, n)

/-- `handleScoreRequest(videos, preferences)`, generalized over the model
pool (the deployed pool is the `MODELS` constant).  `apiKey` is the value
read from storage; the voluntary cooldown wait has no state effect beyond
`modelLastUsed.set(model, now)`.  Returns the response value, the new
worker state and the number of `fetch` calls performed. -/
def handleScoreRequestWith (models : List String) (st : BgState) (now : Int)
    (apiKey : Option String) (videos : List Video) (preferences : String)
    (transport : Nat → FetchResult) : ScoreResult × BgState × Nat :=
  if preferences = "" then (.error "No preferences set", st, 0)
  else if apiKey.getD "" = "" then
    (.error "No API key set. Open the extension popup to add your Gemini API key.",
     st, 0)
  else
    let split := splitCached st.scoreCache preferences videos 0
    let results := split.1
    let uncached := split.2.1
    let uncachedIndices := split.2.2
    if uncached.isEmpty then (.scores results, st, 0)
    else
      let sel := getNextModel models st.modelIndex st.modelLastUsed now
      let model := sel.1
      let st1 : BgState :=
        { st with modelIndex := sel.2,
                  modelLastUsed := mset st.modelLastUsed model now }
      match transport 0 with
      | .failure msg => (.error msg, logErr st1 now "Fetch error" none msg, 1)
      | .success status errText body =>
        if respOk status then
          decodeAndFinish st1 now preferences uncached uncachedIndices
            results body 1
        else
          let st2 := logErr st1 now "API error" (some status)
            ("[" ++ model ++ "] " ++ errText)
          if status = 429 then
            let lu3 := mset st2.modelLastUsed model (now + 30000)
            let st3 : BgState := { st2 with modelLastUsed := lu3 }
            let sel2 := getNextModel models st3.modelIndex st3.modelLastUsed now
            let altModel := sel2.1
            let st4 : BgState := { st3 with modelIndex := sel2.2 }
            if altModel ≠ model then
              let lu5 := mset st4.modelLastUsed altModel now
              let st5 : BgState := { st4 with modelLastUsed := lu5 }
              match transport 1 with
              | .failure msg =>
                (.error msg, logErr st5 now "Parse error" none msg, 2)
              | .success status2 errText2 body2 =>
                if respOk status2 then
                  decodeAndFinish st5 now preferences uncached uncachedIndices
                    results body2 2
                else
                  (.error ("API error " ++ toString status2),
                   logErr st5 now "API error (fallback)" (some status2)
                     ("[" ++ altModel ++ "] " ++ errText2), 2)
            else
              (.error "API error 429 (all models rate-limited)", st4, 1)
          else
            (.error ("API error " ++ toString status), st2, 1)

/-- `handleScoreRequest` with the deployed model pool. -/
def handleScoreRequest (st : BgState) (now : Int) (apiKey : Option String)
    (videos : List Video) (preferences : String)
    (transport : Nat → FetchResult) : ScoreResult × BgState × Nat :=
  handleScoreRequestWith MODELS st now apiKey videos preferences transport

/-! ## Content script: data model -/

/-- The inline style and data attributes the content script drives on a
`ytd-rich-item-renderer` element, plus whether the hover listeners are
attached. -/
structure ElemState where
  opacity : String
  display : String
  transitionStyle : String
  ytcFilter : String
  ytcScored : Bool
  hoverListeners : Bool
  deriving DecidableEq, Repr

/-- A freshly inserted element: empty styles, no data attributes. -/
def ElemState.fresh : ElemState := ⟨"", "", "", "", false, false⟩

/-- A JS number that may be `undefined` (absent array entry).  Comparisons
against `undefined` are false, as in JS. -/
abbrev JNum := Option Rat

/-- `a < b` for a possibly-undefined left operand. -/
def jlt (a : JNum) (b : Rat) : Bool :=
  match a with
  | some x => decide (x < b)
  | none => false

/-- One DOM item: `video` is what `parseVideoElement` returns for it
(`none` for Shorts or title-less items), `elem` its visual state, `score`
its `scoreMap` entry (present iff the element is a key of the weak map). -/
structure CItem where
  video : Option Video
  elem : ElemState
  score : Option JNum
  deriving DecidableEq, Repr

/-- Module-level state of the content script. -/
structure CState where
  items : List CItem
  currentPreferences : String
  filteringEnabled : Bool
  currentStrictness : Nat
  scoringInProgress : Bool
  lastErrorTime : Int
  deriving DecidableEq, Repr

/-- A hide/dim threshold pair. -/
structure FilterPolicy where
  hide : Rat
  dim : Rat
  deriving DecidableEq, Repr

/-- `STRICTNESS_MAP`. -/
def STRICTNESS_MAP : Nat → Option FilterPolicy
  | 1 => some ⟨0.05, 0.2⟩
  | 2 => some ⟨0.1, 0.3⟩
  | 3 => some ⟨0.2, 0.5⟩
  | 4 => some ⟨0.3, 0.7⟩
  | 5 => some ⟨0.5, 0.8⟩
  | _ => none

/-- `getThresholds()`: current strictness with fallback to level 3. -/
def getThresholds (level : Nat) : FilterPolicy :=
  (STRICTNESS_MAP level).getD ⟨0.2, 0.5⟩

/-- Observable effects of a content-script operation. -/
inductive Effect where
  /-- A `chrome.runtime.sendMessage` scoring dispatch with its payload. -/
  | dispatchBatch (videos : List Video) (preferences : String)
  /-- An `applyFilter` visibility recomputation on the item at this index. -/
  | recompute (idx : Nat)
  deriving DecidableEq, Repr

/-- `applyFilter(element, score)`: drive the element's visual state from
its score and the thresholds. -/
def applyFilter (p : FilterPolicy) (e : ElemState) (s : JNum) : ElemState :=
  if jlt s p.hide then
    { e with display := "none", ytcFilter := "hidden" }
  else if jlt s p.dim then
    { e with opacity := "0.3", transitionStyle := "opacity 0.3s",
             ytcFilter := "dimmed", hoverListeners := true }
  else
    { e with opacity := "", display := "", ytcFilter := "shown",
             hoverListeners := false }

/-- Loop body of `reapplyFilters`: recompute every item that has a
`scoreMap` entry; `i` is the DOM index of the first item of the list. -/
def recomputeItems (p : FilterPolicy) :
    List CItem → Nat → List CItem × List Effect
  | [], _ => ([], [])
  | it :: rest, i =>
    let r := recomputeItems p rest (i + 1)
    match it.score with
    | some v => ({ it with elem := applyFilter p it.elem v } :: r.1,
                 .recompute i :: r.2)
    | none => (it :: r.1, r.2)

/-- `reapplyFilters()`: instant re-filter from cached scores; a no-op when
filtering is disabled. -/
def reapplyFilters (st : CState) : CState × List Effect :=
  if !st.filteringEnabled then (st, [])
  else
    let p := getThresholds st.currentStrictness
    let r := recomputeItems p st.items 0
    ({ st with items := r.1 }, r.2)

/-- `resetAllFilters()`: clear inline styles, the filter marker and the
hover listeners on every item (scores and the scored marker survive). -/
def resetAllFilters (st : CState) : CState :=
  { st with items := st.items.map fun it =>
      let e := it.elem
      let e' : ElemState :=
        { e with opacity := "", display := "", ytcFilter := "",
                 hoverListeners := false }
      { it with elem := e' } }

/-- Whether `processVideos` submits this item: `parseVideoElement`
succeeded and the element is not yet marked scored. -/
def isUnscoredVideo (it : CItem) : Bool :=
  it.video.isSome && !it.elem.ytcScored

/-- `applyPendingState(unscoredVideos)`: the call site passes exactly the
parseable, unscored items; the body re-checks `!dataset.ytcScored`. -/
def applyPendingState (st : CState) : CState :=
  { st with items := st.items.map fun it =>
      if isUnscoredVideo it then
        let e := it.elem
        let e' : ElemState :=
          { e with opacity := "0", transitionStyle := "opacity 0.3s",
                   ytcFilter := "pending" }
        { it with elem := e' }
      else it }

/-- Error branch of `processVideos`: unhide the pending (submitted)
videos so the page is not blank. -/
def revertPending : List CItem → List CItem :=
  List.map fun it =>
    if isUnscoredVideo it then
      let e := it.elem
      let e' : ElemState :=
        { e with opacity := "", display := "", ytcFilter := "" }
      { it with elem := e' }
    else it

/-- Success branch of `processVideos`: the `k`-th submitted item gets
`response.scores[k]` stored in `scoreMap`, its scored marker set and its
filter applied.  `i` is the DOM index of the head item, `k` the rank of
the next submitted item. -/
def scoreItems (p : FilterPolicy) (xs : List (Option Rat)) :
    List CItem → Nat → Nat → List CItem × List Effect
  | [], _, _ => ([], [])
  | it :: rest, i, k =>
    if isUnscoredVideo it then
      let sc : JNum := (xs.get? k).bind id
      let e' := applyFilter p { it.elem with ytcScored := true } sc
      let it' : CItem := { it with score := some sc, elem := e' }
      let r := scoreItems p xs rest (i + 1) (k + 1)
      (it' :: r.1, .recompute i :: r.2)
    else
      let r := scoreItems p xs rest (i + 1) k
      (it :: r.1, r.2)

/-- The `unscoredVideos` list of `processVideos`: parseable items not yet
marked scored, projected to their parsed video data (the dispatch
payload). -/
def unscoredVideosOf (st : CState) : List Video :=
  (st.items.filter isUnscoredVideo).filterMap (·.video)

/-- State after the error branch of `processVideos`: pending videos
reverted, the error timestamp recorded, the in-flight flag cleared. -/
def errorResultState (st1 : CState) (now : Int) : CState :=
  { st1 with items := revertPending st1.items,
             lastErrorTime := now,
             scoringInProgress := false }

/-- State after the success branch of `processVideos`: scores stored,
markers set, filters applied, the in-flight flag cleared. -/
def successResultState (st1 : CState) (xs : List (Option Rat)) : CState :=
  { st1 with items := (scoreItems (getThresholds st1.currentStrictness) xs
               st1.items 0 0).1,
             scoringInProgress := false }

/-- `processVideos()`.  `resp` is the value the background worker resolves
the dispatch with; it is only consulted when a dispatch actually happens.
(`applyPendingState st` plays the role of the intermediate state after
the `applyPendingState(unscoredVideos)` call; its strictness and
preferences agree with `st`'s.) -/
def processVideos (st : CState) (now : Int) (resp : ScoreResult) :
    CState × List Effect :=
  if !st.filteringEnabled then (st, [])
  else if (st.items.filter fun it => it.video.isSome).isEmpty then (st, [])
  else if st.currentPreferences = "" || (unscoredVideosOf st).isEmpty then
    (st, [])
  else if st.scoringInProgress then (applyPendingState st, [])
  else if st.lastErrorTime ≠ 0 && now - st.lastErrorTime < 60000 then
    (applyPendingState st, [])
  else
    match resp with
    | .error _ =>
      (errorResultState (applyPendingState st) now,
       [.dispatchBatch (unscoredVideosOf st) st.currentPreferences])
    | .scores xs =>
      (successResultState (applyPendingState st) xs,
       .dispatchBatch (unscoredVideosOf st) st.currentPreferences ::
         (scoreItems (getThresholds st.currentStrictness) xs
           (applyPendingState st).items 0 0).2)

/-- The `changes.strictness` branch of the storage listener:
`newValue || 3`, then an instant re-filter. -/
def onStrictnessChange (st : CState) (newVal : Nat) : CState × List Effect :=
  let s := if newVal = 0 then 3 else newVal
  reapplyFilters { st with currentStrictness := s }

/-- The `changes.enabled` branch of the storage listener. -/
def onEnabledChange (st : CState) (newVal : Bool) (now : Int)
    (resp : ScoreResult) : CState × List Effect :=
  let st' : CState := { st with filteringEnabled := newVal }
  if st'.filteringEnabled then processVideos st' now resp
  else (resetAllFilters st', [])

/-! ## Lemmas: thresholds and `applyFilter` -/

/-- Every policy in the strictness table (and the fallback) satisfies the
`hide ≤ dim` invariant of §3. -/
theorem getThresholds_hide_le_dim (level : Nat) :
    (getThresholds level).hide ≤ (getThresholds level).dim := by
  match level with
  | 0 => norm_num [getThresholds, STRICTNESS_MAP]
  | 1 => norm_num [getThresholds, STRICTNESS_MAP]
  | 2 => norm_num [getThresholds, STRICTNESS_MAP]
  | 3 => norm_num [getThresholds, STRICTNESS_MAP]
  | 4 => norm_num [getThresholds, STRICTNESS_MAP]
  | 5 => norm_num [getThresholds, STRICTNESS_MAP]
  | (n + 6) =>
    simp only [getThresholds]
    rw [show STRICTNESS_MAP (n + 6) = none from rfl]
    norm_num

/-- `applyFilter` never touches the scored marker. -/
theorem applyFilter_ytcScored (p : FilterPolicy) (e : ElemState) (s : JNum) :
    (applyFilter p e s).ytcScored = e.ytcScored := by
  unfold applyFilter
  split <;> [rfl; skip]
  split <;> rfl

/-! ## C10: missing API key rejects the batch before cache and network -/

/-- C10: with no API key stored (absent or empty), `handleScoreRequest`
returns an error, performs zero fetches and leaves the whole worker state
(score cache included) unchanged — even when every item of the batch is
cached, because the credential check precedes the cache split and its
fast path. -/
theorem c10_missing_key_rejected (st : BgState) (now : Int)
    (apiKey : Option String) (videos : List Video) (preferences : String)
    (transport : Nat → FetchResult) (h : apiKey.getD "" = "") :
    ∃ msg, handleScoreRequest st now apiKey videos preferences transport =
      (.error msg, st, 0) := by
  unfold handleScoreRequest handleScoreRequestWith
  by_cases hp : preferences = ""
  · exact ⟨"No preferences set", by simp [hp]⟩
  · refine ⟨"No API key set. Open the extension popup to add your Gemini API key.", ?_⟩
    simp [hp, h]

/-- C10 witness: a batch whose single item is already cached, no API key
stored: rejected with no fetch, state unchanged. -/
theorem c10_missing_key_rejected_witness :
    (Option.none.getD "" = "") ∧
    ∃ msg, handleScoreRequest ⟨[("t|c|p", 1/2)], 0, [], []⟩ 1000 none
      [⟨"t", "c"⟩] "p" (fun _ => .failure "unused") =
      (.error msg, ⟨[("t|c|p", 1/2)], 0, [], []⟩, 0) :=
  ⟨rfl, c10_missing_key_rejected ⟨[("t|c|p", 1/2)], 0, [], []⟩ 1000 none
    [⟨"t", "c"⟩] "p" (fun _ => .failure "unused") rfl⟩

/-! ## C4: monotone visibility partition -/

/-- C4: for every strictness level the visibility class is a monotone
three-way split of the score axis: below `hide` the item is hidden,
from `hide` up to (excluding) `dim` it is dimmed, from `dim` on it is
shown; and for the level-3 policy `{hide := 0.2, dim := 0.5}` the sample
scores 0.1 / 0.35 / 0.7 land in hidden / dimmed / shown, with both
boundary values landing in the higher class. -/
theorem c4_monotone_partition :
    (∀ (level : Nat) (s : Rat) (e : ElemState),
      (s < (getThresholds level).hide →
        (applyFilter (getThresholds level) e (some s)).ytcFilter = "hidden") ∧
      ((getThresholds level).hide ≤ s → s < (getThresholds level).dim →
        (applyFilter (getThresholds level) e (some s)).ytcFilter = "dimmed") ∧
      ((getThresholds level).dim ≤ s →
        (applyFilter (getThresholds level) e (some s)).ytcFilter = "shown")) ∧
    getThresholds 3 = ⟨0.2, 0.5⟩ ∧
    (∀ e, (applyFilter (getThresholds 3) e (some 0.1)).ytcFilter = "hidden") ∧
    (∀ e, (applyFilter (getThresholds 3) e (some 0.35)).ytcFilter = "dimmed") ∧
    (∀ e, (applyFilter (getThresholds 3) e (some 0.7)).ytcFilter = "shown") ∧
    (∀ e, (applyFilter (getThresholds 3) e (some 0.2)).ytcFilter = "dimmed") ∧
    (∀ e, (applyFilter (getThresholds 3) e (some 0.5)).ytcFilter = "shown") := by
  refine ⟨fun level s e => ⟨fun h => ?_, fun h1 h2 => ?_, fun h => ?_⟩,
    ?_, ?_, ?_, ?_, ?_, ?_⟩
  · simp [applyFilter, jlt, h]
  · simp [applyFilter, jlt, not_lt.2 h1, h2]
  · have h1 : ¬ s < (getThresholds level).hide :=
      not_lt.2 (le_trans (getThresholds_hide_le_dim level) h)
    simp [applyFilter, jlt, h1, not_lt.2 h]
  · norm_num [getThresholds, STRICTNESS_MAP]
  · intro e; norm_num [applyFilter, jlt, getThresholds, STRICTNESS_MAP]
  · intro e; norm_num [applyFilter, jlt, getThresholds, STRICTNESS_MAP]
  · intro e; norm_num [applyFilter, jlt, getThresholds, STRICTNESS_MAP]
  · intro e; norm_num [applyFilter, jlt, getThresholds, STRICTNESS_MAP]
  · intro e; norm_num [applyFilter, jlt, getThresholds, STRICTNESS_MAP]

/-! ## Lemmas: `recomputeItems` (the `reapplyFilters` loop) -/

theorem recomputeItems_fst (p : FilterPolicy) :
    ∀ (l : List CItem) (i : Nat),
      (recomputeItems p l i).1 = l.map fun it =>
        match it.score with
        | some v => { it with elem := applyFilter p it.elem v }
        | none => it := by
  intro l
  induction l with
  | nil => intro i; rfl
  | cons hd tl ih =>
    intro i
    cases h : hd.score <;> simp [recomputeItems, h, ih]

theorem recomputeItems_effects_mem (p : FilterPolicy) :
    ∀ (l : List CItem) (i : Nat) (e : Effect),
      e ∈ (recomputeItems p l i).2 →
      ∃ m, i ≤ m ∧ m < i + l.length ∧ e = .recompute m := by
  intro l
  induction l with
  | nil => intro i e h; simp [recomputeItems] at h
  | cons hd tl ih =>
    intro i e h
    cases hsc : hd.score with
    | none =>
      simp only [recomputeItems, hsc] at h
      obtain ⟨m, h1, h2, h3⟩ := ih (i + 1) e h
      exact ⟨m, by omega, by simp only [List.length_cons]; omega, h3⟩
    | some v =>
      simp only [recomputeItems, hsc, List.mem_cons] at h
      rcases h with h | h
      · exact ⟨i, le_refl i, by simp only [List.length_cons]; omega, h⟩
      · obtain ⟨m, h1, h2, h3⟩ := ih (i + 1) e h
        exact ⟨m, by omega, by simp only [List.length_cons]; omega, h3⟩

theorem recomputeItems_count (p : FilterPolicy) :
    ∀ (l : List CItem) (i j : Nat) (it : CItem), l.get? j = some it →
      (recomputeItems p l i).2.count (.recompute (i + j)) =
        if it.score.isSome then 1 else 0 := by
  intro l
  induction l with
  | nil => intro i j it h; simp at h
  | cons hd tl ih =>
    intro i j it h
    have hrest0 : ∀ m, m < i + 1 →
        (recomputeItems p tl (i + 1)).2.count (.recompute m) = 0 := by
      intro m hm
      rw [List.count_eq_zero]
      intro hmem
      obtain ⟨m', h1, _, h3⟩ := recomputeItems_effects_mem p tl (i + 1) _ hmem
      have : m' = m := by injection h3.symm
      omega
    cases j with
    | zero =>
      have hhd : hd = it := by simpa [List.get?] using h
      subst hhd
      cases hsc : hd.score with
      | none =>
        simp only [recomputeItems, hsc, Option.isSome_none, Bool.false_eq_true,
          if_false]
        simpa using hrest0 (i + 0) (by omega)
      | some v =>
        simp only [recomputeItems, hsc, Nat.add_zero, List.count_cons_self,
          Option.isSome_some, if_true]
        rw [hrest0 i (by omega)]
    | succ j' =>
      simp only [List.get?] at h
      have hi : i + (j' + 1) = (i + 1) + j' := by omega
      cases hsc : hd.score with
      | none =>
        simp only [recomputeItems, hsc]
        rw [hi]; exact ih (i + 1) j' it h
      | some v =>
        simp only [recomputeItems, hsc]
        rw [List.count_cons_of_ne
          (by simp only [ne_eq, Effect.recompute.injEq]; omega)]
        rw [hi]; exact ih (i + 1) j' it h

/-! ## C3: strictness change recomputes from stored scores, no dispatch -/

/-- C3 counterexample: with filtering disabled, one already-`Scored` item
(score `0.1`, marker set): changing strictness from 3 to 5 performs zero
visibility recomputations — the state is returned untouched apart from
the recorded strictness level, and the effect trace is empty — while the
claim requires exactly one recomputation for the `Scored` item. -/
theorem c3_strictness_counterexample :
    onStrictnessChange ⟨[⟨some ⟨"t", "c"⟩, ⟨"", "none", "", "hidden", true, false⟩,
        some (some 0.1)⟩], "p", false, 3, false, 0⟩ 5 =
      (⟨[⟨some ⟨"t", "c"⟩, ⟨"", "none", "", "hidden", true, false⟩,
        some (some 0.1)⟩], "p", false, 5, false, 0⟩, []) := by
  rfl

/-- C3 (amended: when filtering is enabled): changing strictness performs,
for every item with a stored score, exactly one visibility recomputation
from that score and the new thresholds, performs no dispatch, leaves
score-less items untouched and never changes any item's stored score or
scored marker. -/
theorem c3_strictness_recompute (st : CState) (newVal : Nat)
    (st' : CState) (effs : List Effect)
    (hen : st.filteringEnabled = true)
    (h : onStrictnessChange st newVal = (st', effs)) :
    (∀ vids pr, Effect.dispatchBatch vids pr ∉ effs) ∧
    st'.currentStrictness = (if newVal = 0 then 3 else newVal) ∧
    st'.currentPreferences = st.currentPreferences ∧
    st'.scoringInProgress = st.scoringInProgress ∧
    (∀ i it v, st.items.get? i = some it → it.score = some v →
      (st'.items.get? i).map (fun x => x.elem) =
        some (applyFilter (getThresholds (if newVal = 0 then 3 else newVal))
          it.elem v) ∧
      effs.count (.recompute i) = 1) ∧
    (∀ i it, st.items.get? i = some it → it.score = none →
      st'.items.get? i = some it ∧ effs.count (.recompute i) = 0) ∧
    (∀ i it, st.items.get? i = some it →
      (st'.items.get? i).map (fun x => x.score) = some it.score ∧
      (st'.items.get? i).map (fun x => x.elem.ytcScored) =
        some it.elem.ytcScored) := by
  have heq : onStrictnessChange st newVal =
      (CState.mk
        (recomputeItems (getThresholds (if newVal = 0 then 3 else newVal))
          st.items 0).1
        st.currentPreferences st.filteringEnabled
        (if newVal = 0 then 3 else newVal) st.scoringInProgress
        st.lastErrorTime,
       (recomputeItems (getThresholds (if newVal = 0 then 3 else newVal))
          st.items 0).2) := by
    simp only [onStrictnessChange, reapplyFilters, hen, Bool.not_true,
      Bool.false_eq_true, if_false]
  rw [heq] at h
  injection h with h1 h2
  subst h2
  have hitems : st'.items =
      (recomputeItems (getThresholds (if newVal = 0 then 3 else newVal))
        st.items 0).1 := by rw [← h1]
  have hst : st'.currentStrictness = (if newVal = 0 then 3 else newVal) ∧
      st'.currentPreferences = st.currentPreferences ∧
      st'.scoringInProgress = st.scoringInProgress := by
    rw [← h1]; exact ⟨rfl, rfl, rfl⟩
  refine ⟨?_, hst.1, hst.2.1, hst.2.2, ?_, ?_, ?_⟩
  · intro vids pr hmem
    obtain ⟨m, _, _, h3⟩ := recomputeItems_effects_mem _ _ _ _ hmem
    exact Effect.noConfusion h3
  · intro i it v hget hsc
    constructor
    · rw [hitems, recomputeItems_fst, List.get?_map, hget]
      simp [hsc]
    · have := recomputeItems_count
        (getThresholds (if newVal = 0 then 3 else newVal)) st.items 0 i it hget
      rw [Nat.zero_add] at this
      rw [this, hsc]; rfl
  · intro i it hget hsc
    constructor
    · rw [hitems, recomputeItems_fst, List.get?_map, hget]
      simp [hsc]
    · have := recomputeItems_count
        (getThresholds (if newVal = 0 then 3 else newVal)) st.items 0 i it hget
      rw [Nat.zero_add] at this
      rw [this, hsc]; rfl
  · intro i it hget
    rw [hitems, recomputeItems_fst, List.get?_map, hget]
    cases hsc : it.score with
    | none => simp [hsc]
    | some v => simp [hsc, applyFilter_ytcScored]

/-- C3 witness: one enabled state with a single `Scored` item (score 0.7):
the strictness change 3 → 5 recomputes it exactly once. -/
theorem c3_strictness_recompute_witness :
    (onStrictnessChange ⟨[⟨some ⟨"t", "c"⟩, ⟨"", "", "", "shown", true, false⟩,
        some (some 0.7)⟩], "p", true, 3, false, 0⟩ 5).2.count (.recompute 0) = 1 := by
  have h := c3_strictness_recompute
    ⟨[⟨some ⟨"t", "c"⟩, ⟨"", "", "", "shown", true, false⟩, some (some 0.7)⟩],
      "p", true, 3, false, 0⟩ 5 _ _ rfl rfl
  exact (h.2.2.2.2.1 0 _ (some 0.7) rfl rfl).2

/-! ## C7: the Pending visual state -/

/-- C7 counterexample: `applyPendingState` on a single unscored item
forces `style.opacity` to the string `"0"` — CSS opacity zero, a fully
transparent (fully hidden) element — refuting "a minimal but strictly
non-zero value". -/
theorem c7_pending_counterexample :
    ((applyPendingState ⟨[⟨some ⟨"t", "c"⟩, ⟨"", "", "", "", false, false⟩,
        none⟩], "p", true, 3, false, 0⟩).items.map fun it => it.elem.opacity) =
      ["0"] := by
  rfl

/-- C7 (amended): every parseable, not-yet-scored item entering the
in-flight batch has its opacity forced to `"0"` (fully transparent) and
its filter marker set to `"pending"`; its `display` property, scored
marker and stored score are untouched (so a Pending item is fully
invisible, distinguishable from the Hidden class only by `display` and
the marker, not by a non-zero opacity); all other items are untouched. -/
theorem c7_pending_forced (st : CState) (i : Nat) (it : CItem)
    (h : st.items.get? i = some it) :
    (isUnscoredVideo it = true →
      (applyPendingState st).items.get? i =
        some ⟨it.video, ⟨"0", it.elem.display, "opacity 0.3s", "pending",
          it.elem.ytcScored, it.elem.hoverListeners⟩, it.score⟩) ∧
    (isUnscoredVideo it = false →
      (applyPendingState st).items.get? i = some it) := by
  rw [List.get?_eq_getElem?] at h
  constructor <;> intro hu <;>
    rw [List.get?_eq_getElem?] <;>
    simp [applyPendingState, List.getElem?_map, h, hu]

/-- C7 witness: the amended Pending description evaluated on a one-item
state. -/
theorem c7_pending_forced_witness :
    (applyPendingState ⟨[⟨some ⟨"t", "c"⟩, ⟨"", "", "", "", false, false⟩,
        none⟩], "p", true, 3, false, 0⟩).items.get? 0 =
      some ⟨some ⟨"t", "c"⟩, ⟨"0", "", "opacity 0.3s", "pending", false,
        false⟩, none⟩ :=
  (c7_pending_forced ⟨[⟨some ⟨"t", "c"⟩, ⟨"", "", "", "", false, false⟩,
    none⟩], "p", true, 3, false, 0⟩ 0 _ rfl).1 rfl

/-! ## Lemmas: `processVideos` building blocks -/

/-- `applyPendingState` leaves an already-scored item untouched. -/
theorem applyPendingState_scored (st : CState) (j : Nat) (it : CItem)
    (h : st.items.get? j = some it) (hs : it.elem.ytcScored = true) :
    (applyPendingState st).items.get? j = some it := by
  have hu : isUnscoredVideo it = false := by
    simp [isUnscoredVideo, hs]
  rw [List.get?_eq_getElem?] at h ⊢
  simp [applyPendingState, List.getElem?_map, h, hu]

/-- `revertPending` leaves an already-scored item untouched. -/
theorem revertPending_scored (l : List CItem) (j : Nat) (it : CItem)
    (h : l.get? j = some it) (hs : it.elem.ytcScored = true) :
    (revertPending l).get? j = some it := by
  have hu : isUnscoredVideo it = false := by
    simp [isUnscoredVideo, hs]
  rw [List.get?_eq_getElem?] at h ⊢
  simp [revertPending, List.getElem?_map, h, hu]

/-- The success-branch loop leaves an already-scored item untouched. -/
theorem scoreItems_preserves_scored (p : FilterPolicy) (xs : List (Option Rat)) :
    ∀ (l : List CItem) (i k j : Nat) (it : CItem), l.get? j = some it →
      it.elem.ytcScored = true → (scoreItems p xs l i k).1.get? j = some it := by
  intro l
  induction l with
  | nil => intro i k j it h _; simp at h
  | cons hd tl ih =>
    intro i k j it h hs
    cases j with
    | zero =>
      have hhd : hd = it := by simpa [List.get?] using h
      subst hhd
      have hu : isUnscoredVideo hd = false := by
        simp [isUnscoredVideo, hs]
      simp [scoreItems, hu, List.get?]
    | succ j' =>
      simp only [List.get?] at h
      cases hu : isUnscoredVideo hd with
      | true =>
        simp only [scoreItems, hu, if_true, List.get?]
        exact ih (i + 1) (k + 1) j' it h hs
      | false =>
        simp only [scoreItems, hu, Bool.false_eq_true, if_false, List.get?]
        exact ih (i + 1) k j' it h hs

/-- Every effect the success-branch loop emits is a recomputation. -/
theorem scoreItems_effects_recompute (p : FilterPolicy) (xs : List (Option Rat)) :
    ∀ (l : List CItem) (i k : Nat) (e : Effect),
      e ∈ (scoreItems p xs l i k).2 → ∃ m, e = .recompute m := by
  intro l
  induction l with
  | nil => intro i k e h; simp [scoreItems] at h
  | cons hd tl ih =>
    intro i k e h
    cases hu : isUnscoredVideo hd with
    | true =>
      simp only [scoreItems, hu, if_true, List.mem_cons] at h
      rcases h with h | h
      · exact ⟨i, h⟩
      · exact ih (i + 1) (k + 1) e h
    | false =>
      simp only [scoreItems, hu, Bool.false_eq_true, if_false] at h
      exact ih (i + 1) k e h

/-- `processVideos` never changes an item whose scored marker is set: no
branch of the processing path touches an already-`Scored` item. -/
theorem processVideos_preserves_scored (st : CState) (now : Int)
    (resp : ScoreResult) (j : Nat) (it : CItem)
    (h : st.items.get? j = some it) (hs : it.elem.ytcScored = true) :
    (processVideos st now resp).1.items.get? j = some it := by
  have hpend := applyPendingState_scored st j it h hs
  unfold processVideos
  split
  · exact h
  split
  · exact h
  split
  · exact h
  split
  · exact hpend
  split
  · exact hpend
  split
  · simp only [errorResultState]
    exact revertPending_scored _ j it hpend hs
  · simp only [successResultState]
    exact scoreItems_preserves_scored _ _ _ 0 0 j it hpend hs

/-- Any dispatch `processVideos` performs carries exactly the parseable
unscored items and the current preferences. -/
theorem processVideos_dispatch_payload (st : CState) (now : Int)
    (resp : ScoreResult) (vids : List Video) (pr : String)
    (h : Effect.dispatchBatch vids pr ∈ (processVideos st now resp).2) :
    vids = unscoredVideosOf st ∧ pr = st.currentPreferences := by
  unfold processVideos at h
  split at h
  · simp at h
  split at h
  · simp at h
  split at h
  · simp at h
  split at h
  · simp at h
  split at h
  · simp at h
  split at h
  · simp only [List.mem_singleton] at h
    obtain ⟨h1, h2⟩ := Effect.dispatchBatch.inj h
    exact ⟨h1, h2⟩
  · simp only [List.mem_cons] at h
    rcases h with h | h
    · obtain ⟨h1, h2⟩ := Effect.dispatchBatch.inj h
      exact ⟨h1, h2⟩
    · obtain ⟨m, hm⟩ := scoreItems_effects_recompute _ _ _ 0 0 _ h
      exact Effect.noConfusion hm

/-! ## Lemmas: the cached/uncached split -/

/-- `mget` only returns stored values. -/
theorem mget_mem {β : Type} :
    ∀ (m : List (String × β)) (k : String) (v : β), mget m k = some v →
      ∃ p ∈ m, p.2 = v := by
  intro m
  induction m with
  | nil => intro k v h; simp [mget] at h
  | cons hd tl ih =>
    intro k v h
    obtain ⟨k0, v0⟩ := hd
    by_cases hk : k0 = k
    · simp only [mget, if_pos hk] at h
      exact ⟨(k0, v0), List.mem_cons_self _ _, by injection h⟩
    · simp only [mget, if_neg hk] at h
      obtain ⟨p, hp, hv⟩ := ih k v h
      exact ⟨p, List.mem_cons_of_mem _ hp, hv⟩

/-- The `results` array of the split is the per-video cache lookup. -/
theorem splitCached_res_eq (cache : List (String × Rat)) (preferences : String) :
    ∀ (vs : List Video) (i : Nat),
      (splitCached cache preferences vs i).1 =
        vs.map fun v => mget cache (cacheKey v preferences) := by
  intro vs
  induction vs with
  | nil => intro i; rfl
  | cons v vs ih =>
    intro i
    cases h : mget cache (cacheKey v preferences) <;>
      simp [splitCached, h, ih (i + 1)]

/-- The uncached list of the split is the cache-miss filter. -/
theorem splitCached_unc_eq (cache : List (String × Rat)) (preferences : String) :
    ∀ (vs : List Video) (i : Nat),
      (splitCached cache preferences vs i).2.1 =
        vs.filter fun v => (mget cache (cacheKey v preferences)).isNone := by
  intro vs
  induction vs with
  | nil => intro i; rfl
  | cons v vs ih =>
    intro i
    cases h : mget cache (cacheKey v preferences) <;>
      simp [splitCached, h, ih (i + 1), List.filter_cons]

/-- As many uncached indices as uncached videos. -/
theorem splitCached_len_eq (cache : List (String × Rat)) (preferences : String) :
    ∀ (vs : List Video) (i : Nat),
      (splitCached cache preferences vs i).2.2.length =
        (splitCached cache preferences vs i).2.1.length := by
  intro vs
  induction vs with
  | nil => intro i; rfl
  | cons v vs ih =>
    intro i
    cases h : mget cache (cacheKey v preferences) <;>
      simp [splitCached, h, ih (i + 1)]

/-- Every recorded uncached index is in the index range of the batch. -/
theorem splitCached_idx_mem (cache : List (String × Rat)) (preferences : String) :
    ∀ (vs : List Video) (i j : Nat),
      j ∈ (splitCached cache preferences vs i).2.2 → i ≤ j ∧ j - i < vs.length := by
  intro vs
  induction vs with
  | nil => intro i j h; simp [splitCached] at h
  | cons v vs ih =>
    intro i j h
    cases hm : mget cache (cacheKey v preferences) with
    | some s =>
      simp only [splitCached, hm] at h
      obtain ⟨h1, h2⟩ := ih (i + 1) j h
      refine ⟨by omega, ?_⟩
      simp only [List.length_cons]; omega
    | none =>
      simp only [splitCached, hm, List.mem_cons] at h
      rcases h with h | h
      · subst h; simp
      · obtain ⟨h1, h2⟩ := ih (i + 1) j h
        refine ⟨by omega, ?_⟩
        simp only [List.length_cons]; omega

/-- Uncached indices are recorded in strictly increasing order. -/
theorem splitCached_idx_pairwise (cache : List (String × Rat))
    (preferences : String) :
    ∀ (vs : List Video) (i : Nat),
      (splitCached cache preferences vs i).2.2.Pairwise (· < ·) := by
  intro vs
  induction vs with
  | nil => intro i; simp [splitCached]
  | cons v vs ih =>
    intro i
    cases hm : mget cache (cacheKey v preferences) with
    | some s => simpa [splitCached, hm] using ih (i + 1)
    | none =>
      simp only [splitCached, hm, List.pairwise_cons]
      refine ⟨fun j hj => ?_, ih (i + 1)⟩
      exact lt_of_lt_of_le (by omega) (splitCached_idx_mem cache preferences
        vs (i + 1) j hj).1

/-- The `k`-th uncached index points back at the `k`-th uncached video,
which is a cache miss sitting at that position of the original batch. -/
theorem splitCached_idx_spec (cache : List (String × Rat))
    (preferences : String) :
    ∀ (vs : List Video) (i k idx : Nat),
      (splitCached cache preferences vs i).2.2.get? k = some idx →
      ∃ v, (splitCached cache preferences vs i).2.1.get? k = some v ∧
        vs.get? (idx - i) = some v ∧ i ≤ idx ∧
        mget cache (cacheKey v preferences) = none := by
  intro vs
  induction vs with
  | nil => intro i k idx h; simp [splitCached] at h
  | cons v vs ih =>
    intro i k idx h
    cases hm : mget cache (cacheKey v preferences) with
    | some s =>
      simp only [splitCached, hm] at h ⊢
      obtain ⟨v', h1, h2, h3, h4⟩ := ih (i + 1) k idx h
      refine ⟨v', h1, ?_, by omega, h4⟩
      have : idx - i = (idx - (i + 1)) + 1 := by omega
      rw [this]
      simpa [List.get?] using h2
    | none =>
      cases k with
      | zero =>
        simp only [splitCached, hm, List.get?] at h ⊢
        injection h with h
        subst h
        refine ⟨v, rfl, ?_, le_refl i, hm⟩
        simp
      | succ k' =>
        simp only [splitCached, hm, List.get?] at h ⊢
        obtain ⟨v', h1, h2, h3, h4⟩ := ih (i + 1) k' idx h
        refine ⟨v', h1, ?_, by omega, h4⟩
        have : idx - i = (idx - (i + 1)) + 1 := by omega
        rw [this]
        simpa [List.get?] using h2

/-! ## Lemmas: the success write-back loop -/

/-- Clamped values lie in the unit interval. -/
theorem clamp_mem_unit (x : Rat) : 0 ≤ clamp x ∧ clamp x ≤ 1 := by
  unfold clamp
  refine ⟨le_max_left 0 _, max_le (by norm_num) (min_le_left 1 x)⟩

/-- The write-back loop never removes a cache key. -/
theorem applyScores_cache_isSome (preferences : String) :
    ∀ (unc : List Video) (xs : List Rat) (idxs : List Nat)
      (cache : List (String × Rat)) (res : List (Option Rat)) (k : String),
      (mget cache k).isSome →
      (mget (applyScores preferences unc xs idxs cache res).1 k).isSome := by
  intro unc
  induction unc with
  | nil => intro xs idxs cache res k h; simpa [applyScores] using h
  | cons v vs ih =>
    intro xs idxs cache res k h
    cases xs with
    | nil => simpa [applyScores] using h
    | cons x xs' =>
      cases idxs with
      | nil => simpa [applyScores] using h
      | cons i is =>
        simp only [applyScores]
        exact ih xs' is _ _ k (mget_mset_isSome _ _ _ _ h)

/-- After the write-back loop every submitted video's key is cached. -/
theorem applyScores_cache_mem (preferences : String) :
    ∀ (unc : List Video) (xs : List Rat) (idxs : List Nat)
      (cache : List (String × Rat)) (res : List (Option Rat)) (v : Video),
      v ∈ unc → xs.length = unc.length → idxs.length = unc.length →
      (mget (applyScores preferences unc xs idxs cache res).1
        (cacheKey v preferences)).isSome := by
  intro unc
  induction unc with
  | nil => intro _ _ _ _ v h; simp at h
  | cons u us ih =>
    intro xs idxs cache res v hv hxs hidx
    cases xs with
    | nil => simp at hxs
    | cons x xs' =>
      cases idxs with
      | nil => simp at hidx
      | cons i is =>
        simp only [applyScores]
        rcases List.mem_cons.1 hv with h | h
        · subst h
          exact applyScores_cache_isSome preferences us xs' is _ _ _
            (by rw [mget_mset_self]; rfl)
        · exact ih xs' is _ _ v h (by simpa using hxs) (by simpa using hidx)

/-- The write-back loop preserves the length of `results`. -/
theorem applyScores_res_length (preferences : String) :
    ∀ (unc : List Video) (xs : List Rat) (idxs : List Nat)
      (cache : List (String × Rat)) (res : List (Option Rat)),
      ((applyScores preferences unc xs idxs cache res).2).length = res.length := by
  intro unc
  induction unc with
  | nil => intro xs idxs cache res; rfl
  | cons v vs ih =>
    intro xs idxs cache res
    cases xs with
    | nil => rfl
    | cons x xs' =>
      cases idxs with
      | nil => rfl
      | cons i is => simp [applyScores, ih xs' is]

/-- The write-back loop does not touch positions outside the uncached
index list. -/
theorem applyScores_res_untouched (preferences : String) :
    ∀ (unc : List Video) (xs : List Rat) (idxs : List Nat)
      (cache : List (String × Rat)) (res : List (Option Rat)) (j : Nat),
      j ∉ idxs →
      (applyScores preferences unc xs idxs cache res).2.get? j = res.get? j := by
  intro unc
  induction unc with
  | nil => intro xs idxs cache res j _; rfl
  | cons v vs ih =>
    intro xs idxs cache res j hj
    cases xs with
    | nil => rfl
    | cons x xs' =>
      cases idxs with
      | nil => rfl
      | cons i is =>
        simp only [applyScores]
        have hji : j ≠ i := fun h => hj (h ▸ List.mem_cons_self i is)
        have hjs : j ∉ is := fun h => hj (List.mem_cons_of_mem _ h)
        rw [ih xs' is _ _ j hjs, List.get?_set_ne _ _ (Ne.symm hji)]

/-- The `k`-th submitted video's clamped score lands at the `k`-th
uncached index of `results`. -/
theorem applyScores_res_at (preferences : String) :
    ∀ (unc : List Video) (xs : List Rat) (idxs : List Nat)
      (cache : List (String × Rat)) (res : List (Option Rat))
      (k idx : Nat) (x : Rat),
      idxs.Pairwise (· < ·) → k < unc.length →
      xs.get? k = some x → idxs.get? k = some idx → idx < res.length →
      (applyScores preferences unc xs idxs cache res).2.get? idx =
        some (some (clamp x)) := by
  intro unc
  induction unc with
  | nil => intro xs idxs cache res k idx x _ hk; simp at hk
  | cons u us ih =>
    intro xs idxs cache res k idx x hpw hk hx hidx hlt
    cases xs with
    | nil => simp [List.get?] at hx
    | cons x0 xs' =>
      cases idxs with
      | nil => simp [List.get?] at hidx
      | cons i0 is =>
        simp only [List.pairwise_cons] at hpw
        cases k with
        | zero =>
          simp only [List.get?] at hx hidx
          injection hx with hx
          injection hidx with hidx
          subst hx; subst hidx
          simp only [applyScores]
          have hni : i0 ∉ is := fun hmem => lt_irrefl i0 (hpw.1 i0 hmem)
          rw [applyScores_res_untouched preferences us xs' is _ _ i0 hni]
          rw [List.get?_eq_getElem?]
          exact List.getElem?_set_eq_of_lt _ hlt
        | succ k' =>
          simp only [List.get?] at hx hidx
          simp only [applyScores]
          refine ih xs' is _ _ k' idx x hpw.2 (by simpa using hk) hx hidx ?_
          simpa using hlt

/-- Every value in the cache after the write-back is an old cache value
or a clamped score. -/
theorem applyScores_cache_values (preferences : String) :
    ∀ (unc : List Video) (xs : List Rat) (idxs : List Nat)
      (cache : List (String × Rat)) (res : List (Option Rat)) (q : String × Rat),
      q ∈ (applyScores preferences unc xs idxs cache res).1 →
      (∃ p ∈ cache, q.2 = p.2) ∨ ∃ x, q.2 = clamp x := by
  intro unc
  induction unc with
  | nil =>
    intro xs idxs cache res q h
    exact Or.inl ⟨q, h, rfl⟩
  | cons u us ih =>
    intro xs idxs cache res q h
    cases xs with
    | nil => exact Or.inl ⟨q, h, rfl⟩
    | cons x xs' =>
      cases idxs with
      | nil => exact Or.inl ⟨q, h, rfl⟩
      | cons i is =>
        simp only [applyScores] at h
        rcases ih xs' is _ _ q h with ⟨p, hp, hq⟩ | ⟨y, hy⟩
        · rcases mset_values cache (cacheKey u preferences) (clamp x) p hp
            with h1 | ⟨r, hr, h1⟩
          · exact Or.inr ⟨x, hq.trans h1⟩
          · exact Or.inl ⟨r, hr, hq.trans h1⟩
        · exact Or.inr ⟨y, hy⟩

/-- Every entry of `results` after the write-back is an original entry or
a clamped score. -/
theorem applyScores_res_values (preferences : String) :
    ∀ (unc : List Video) (xs : List Rat) (idxs : List Nat)
      (cache : List (String × Rat)) (res : List (Option Rat)) (o : Option Rat),
      o ∈ (applyScores preferences unc xs idxs cache res).2 →
      o ∈ res ∨ ∃ x, o = some (clamp x) := by
  intro unc
  induction unc with
  | nil => intro xs idxs cache res o h; exact Or.inl h
  | cons u us ih =>
    intro xs idxs cache res o h
    cases xs with
    | nil => exact Or.inl h
    | cons x xs' =>
      cases idxs with
      | nil => exact Or.inl h
      | cons i is =>
        simp only [applyScores] at h
        rcases ih xs' is _ _ o h with h1 | h1
        · rcases List.mem_or_eq_of_mem_set h1 with h2 | h2
          · exact Or.inl h2
          · exact Or.inr ⟨x, h2⟩
        · exact Or.inr h1

/-! ## Lemmas: the OK-response path of `handleScoreRequest` -/

/-- The decode step rejects this body for a batch of `n` uncached items:
missing text, parse failure, non-array, or wrong array length. -/
def decodeFails : Body → Nat → Prop
  | .noText, _ => True
  | .parseFail _, _ => True
  | .nonArray, _ => True
  | .arr xs, n => xs.length ≠ n

/-- With preferences and key present, a non-trivial uncached set and an
OK first response, `handleScoreRequest` is exactly the decode step run on
that response's body, after the model bookkeeping. -/
theorem handle_ok_eq (models : List String) (st : BgState) (now : Int)
    (apiKey : Option String) (videos : List Video) (preferences : String)
    (transport : Nat → FetchResult) (status : Nat) (errText : String)
    (body : Body)
    (hp : preferences ≠ "") (hk : apiKey.getD "" ≠ "")
    (hunc : (splitCached st.scoreCache preferences videos 0).2.1 ≠ [])
    (htp : transport 0 = .success status errText body)
    (hok : respOk status = true) :
    handleScoreRequestWith models st now apiKey videos preferences transport =
      decodeAndFinish
        (BgState.mk st.scoreCache
          (getNextModel models st.modelIndex st.modelLastUsed now).2
          (mset st.modelLastUsed
            (getNextModel models st.modelIndex st.modelLastUsed now).1 now)
          st.errorLog)
        now preferences
        (splitCached st.scoreCache preferences videos 0).2.1
        (splitCached st.scoreCache preferences videos 0).2.2
        (splitCached st.scoreCache preferences videos 0).1
        body 1 := by
  have hempty : (splitCached st.scoreCache preferences videos 0).2.1.isEmpty
      = false := by
    rw [List.isEmpty_eq_false]
    exact hunc
  unfold handleScoreRequestWith
  rw [if_neg hp, if_neg hk]
  simp only [hempty, Bool.false_eq_true, if_false, htp, hok, if_true]

/-- A successful decode can only come from a well-sized array body, and
its cache is the write-back of that array. -/
theorem decodeAndFinish_scores_inv (st : BgState) (now : Int)
    (preferences : String) (unc : List Video) (idxs : List Nat)
    (results : List (Option Rat)) (body : Body) (n : Nat)
    (res : List (Option Rat)) (st' : BgState) (n' : Nat)
    (h : decodeAndFinish st now preferences unc idxs results body n =
      (.scores res, st', n')) :
    ∃ xs : List Rat, body = .arr xs ∧ xs.length = unc.length ∧
      res = (applyScores preferences unc xs idxs st.scoreCache results).2 ∧
      st'.scoreCache =
        (applyScores preferences unc xs idxs st.scoreCache results).1 := by
  cases body with
  | noText => simp [decodeAndFinish] at h
  | parseFail m => simp [decodeAndFinish] at h
  | nonArray => simp [decodeAndFinish] at h
  | arr xs =>
    by_cases hlen : xs.length = unc.length
    · rw [show decodeAndFinish st now preferences unc idxs results (.arr xs) n =
        (.scores (applyScores preferences unc xs idxs st.scoreCache results).2,
         BgState.mk (applyScores preferences unc xs idxs st.scoreCache results).1
           st.modelIndex st.modelLastUsed st.errorLog, n) from by
          simp [decodeAndFinish, hlen]] at h
      injection h with ha hbc
      injection hbc with hb hc
      injection ha with ha
      refine ⟨xs, rfl, hlen, ha.symm, ?_⟩
      rw [← hb]
    · simp [decodeAndFinish, hlen] at h

/-- Keys of all batch videos are cached after a successful decode whose
split was computed over `cache0`. -/
theorem cache_keys_after_decode (stD : BgState) (now : Int)
    (preferences : String) (videos : List Video)
    (cache0 : List (String × Rat)) (res : List (Option Rat)) (st' : BgState)
    (nD n' : Nat) (body : Body)
    (h : decodeAndFinish stD now preferences
        (splitCached cache0 preferences videos 0).2.1
        (splitCached cache0 preferences videos 0).2.2
        (splitCached cache0 preferences videos 0).1 body nD =
      (.scores res, st', n'))
    (hc : stD.scoreCache = cache0)
    (v : Video) (hv : v ∈ videos) :
    (mget st'.scoreCache (cacheKey v preferences)).isSome := by
  obtain ⟨xs, hbody, hlen, hres, hcache⟩ :=
    decodeAndFinish_scores_inv _ _ _ _ _ _ _ _ _ _ _ h
  rw [hcache, hc]
  by_cases hs : (mget cache0 (cacheKey v preferences)).isSome
  · exact applyScores_cache_isSome preferences _ _ _ _ _ _ hs
  · have hnone : (mget cache0 (cacheKey v preferences)).isNone = true := by
      cases hmm : mget cache0 (cacheKey v preferences)
      · rfl
      · exact absurd (by simp [hmm]) hs
    have hmem : v ∈ (splitCached cache0 preferences videos 0).2.1 := by
      rw [splitCached_unc_eq]
      exact List.mem_filter.2 ⟨hv, hnone⟩
    exact applyScores_cache_mem preferences _ _ _ _ _ v hmem hlen
      (splitCached_len_eq cache0 preferences videos 0)

/-- If `handleScoreRequest` resolves with scores, every video of the
batch has its key in the resulting cache. -/
theorem handle_scores_cache_keys (models : List String) (st : BgState)
    (now : Int) (apiKey : Option String) (videos : List Video)
    (preferences : String) (transport : Nat → FetchResult)
    (res : List (Option Rat)) (st' : BgState) (n : Nat)
    (h : handleScoreRequestWith models st now apiKey videos preferences
      transport = (.scores res, st', n)) :
    ∀ v ∈ videos, (mget st'.scoreCache (cacheKey v preferences)).isSome := by
  intro v hv
  by_cases hp : preferences = ""
  · unfold handleScoreRequestWith at h
    simp [hp] at h
  by_cases hk : apiKey.getD "" = ""
  · unfold handleScoreRequestWith at h
    simp [hp, hk] at h
  by_cases hunc : (splitCached st.scoreCache preferences videos 0).2.1 = []
  · unfold handleScoreRequestWith at h
    simp only [if_neg hp, if_neg hk, hunc, List.isEmpty_nil, if_true] at h
    have hst : st = st' := congrArg (fun t => t.2.1) h
    rw [← hst]
    rw [splitCached_unc_eq] at hunc
    have := (List.filter_eq_nil.1 hunc) v hv
    cases hmm : mget st.scoreCache (cacheKey v preferences)
    · exact absurd (by simp [hmm]) this
    · simp [hmm]
  · have hemp : (splitCached st.scoreCache preferences videos 0).2.1.isEmpty
        = false := by
      rw [List.isEmpty_eq_false]; exact hunc
    unfold handleScoreRequestWith at h
    simp only [if_neg hp, if_neg hk, hemp, Bool.false_eq_true, if_false] at h
    cases t0 : transport 0 with
    | failure msg => simp [t0] at h
    | success status errText body =>
      simp only [t0] at h
      by_cases hok : respOk status = true
      · simp only [hok, if_true] at h
        exact cache_keys_after_decode _ now preferences videos st.scoreCache
          res st' 1 n body h rfl v hv
      · have hok' : respOk status = false := by simpa using hok
        simp only [hok', Bool.false_eq_true, if_false] at h
        by_cases h429 : status = 429
        · simp only [h429, if_true, logErr_modelIndex, logErr_modelLastUsed,
            logErr_scoreCache] at h
          by_cases halt :
              (getNextModel models
                (getNextModel models st.modelIndex st.modelLastUsed now).2
                (mset (mset st.modelLastUsed
                  (getNextModel models st.modelIndex st.modelLastUsed now).1
                  now)
                  (getNextModel models st.modelIndex st.modelLastUsed now).1
                  (now + 30000)) now).1 =
              (getNextModel models st.modelIndex st.modelLastUsed now).1
          · simp only [ne_eq, halt, not_true_eq_false, Bool.false_eq_true,
              if_false, ite_false] at h
            simp at h
          · simp only [ne_eq, halt, not_false_eq_true, if_true, ite_true] at h
            cases t1 : transport 1 with
            | failure msg => simp [t1] at h
            | success status2 errText2 body2 =>
              simp only [t1] at h
              by_cases hok2 : respOk status2 = true
              · simp only [hok2, if_true] at h
                exact cache_keys_after_decode _ now preferences videos
                  st.scoreCache res st' 2 n body2 h rfl v hv
              · have hok2' : respOk status2 = false := by simpa using hok2
                simp only [hok2', Bool.false_eq_true, if_false] at h
                simp at h
        · simp only [h429, if_false] at h
          simp at h

/-! ## Lemmas: fetch counting and state projections of the decode step -/

theorem decodeAndFinish_count (st : BgState) (now : Int) (preferences : String)
    (unc : List Video) (idxs : List Nat) (results : List (Option Rat))
    (body : Body) (n : Nat) :
    (decodeAndFinish st now preferences unc idxs results body n).2.2 = n := by
  cases body with
  | noText => rfl
  | parseFail m => rfl
  | nonArray => rfl
  | arr xs =>
    by_cases h : xs.length = unc.length
    · simp [decodeAndFinish, h]
    · simp [decodeAndFinish, h]

theorem decodeAndFinish_lu (st : BgState) (now : Int) (preferences : String)
    (unc : List Video) (idxs : List Nat) (results : List (Option Rat))
    (body : Body) (n : Nat) :
    (decodeAndFinish st now preferences unc idxs results body n).2.1.modelLastUsed
      = st.modelLastUsed := by
  cases body with
  | noText => rfl
  | parseFail m => rfl
  | nonArray => rfl
  | arr xs =>
    by_cases h : xs.length = unc.length
    · simp [decodeAndFinish, h]
    · simp [decodeAndFinish, h, logErr]

/-- The worker performs at most two fetches per call: the initial send
and at most one fallback retry. -/
theorem handle_fetch_le_two (models : List String) (st : BgState) (now : Int)
    (apiKey : Option String) (videos : List Video) (preferences : String)
    (transport : Nat → FetchResult) :
    (handleScoreRequestWith models st now apiKey videos preferences
      transport).2.2 ≤ 2 := by
  by_cases hp : preferences = ""
  · unfold handleScoreRequestWith; simp [hp]
  by_cases hk : apiKey.getD "" = ""
  · unfold handleScoreRequestWith; simp [hp, hk]
  by_cases hunc : (splitCached st.scoreCache preferences videos 0).2.1.isEmpty
      = true
  · unfold handleScoreRequestWith; simp [hp, hk, hunc]
  · have hemp : (splitCached st.scoreCache preferences videos 0).2.1.isEmpty
        = false := by simpa using hunc
    unfold handleScoreRequestWith
    rw [if_neg hp, if_neg hk]
    simp only [hemp, Bool.false_eq_true, if_false]
    cases t0 : transport 0 with
    | failure msg => simp
    | success status errText body =>
      by_cases hok : respOk status = true
      · simp [hok, decodeAndFinish_count]
      · have hok' : respOk status = false := by simpa using hok
        simp only [hok', Bool.false_eq_true, if_false]
        by_cases h429 : status = 429
        · simp only [h429, if_true, logErr_modelIndex, logErr_modelLastUsed]
          split
          · cases t1 : transport 1 with
            | failure msg => simp
            | success s2 e2 b2 =>
              by_cases hok2 : respOk s2 = true
              · simp [hok2, decodeAndFinish_count]
              · have hok2' : respOk s2 = false := by simpa using hok2
                simp [hok2']
          · simp
        · simp [h429]

/-! ## C9: endpoint selection is total -/

/-- C9: `getNextModel` over the deployed pool always returns a pool
member.  If some model's shared cooldown window (`PER_MODEL_GAP_MS`) has
elapsed, the first such model in round-robin order starting after the
last returned index is returned (every earlier rotation slot being
unavailable) and the cursor advances past it; if none is available, the
returned model minimizes the remaining wait over the whole pool — the
call never fails and never blocks. -/
theorem c9_selection_total :
    (∀ (mi : Nat) (lu : List (String × Int)) (now : Int),
      (getNextModel MODELS mi lu now).1 ∈ MODELS) ∧
    (∀ (mi : Nat) (lu : List (String × Int)) (now : Int) (j : Nat),
      j < MODELS.length →
      PER_MODEL_GAP_MS ≤ now -
        luVal lu (MODELS.getD ((mi + j) % MODELS.length) "") →
      ∃ j', j' < MODELS.length ∧
        PER_MODEL_GAP_MS ≤ now -
          luVal lu (MODELS.getD ((mi + j') % MODELS.length) "") ∧
        (getNextModel MODELS mi lu now).1 =
          MODELS.getD ((mi + j') % MODELS.length) "" ∧
        (getNextModel MODELS mi lu now).2 =
          ((mi + j') % MODELS.length + 1) % MODELS.length ∧
        ∀ j'', j'' < j' →
          ¬(PER_MODEL_GAP_MS ≤ now -
            luVal lu (MODELS.getD ((mi + j'') % MODELS.length) ""))) ∧
    (∀ (mi : Nat) (lu : List (String × Int)) (now : Int),
      (∀ j, j < MODELS.length →
        ¬(PER_MODEL_GAP_MS ≤ now -
          luVal lu (MODELS.getD ((mi + j) % MODELS.length) ""))) →
      ∀ m' ∈ MODELS,
        waitOf lu now (getNextModel MODELS mi lu now).1 ≤
          waitOf lu now m') := by
  refine ⟨?_, ?_, ?_⟩
  · intro mi lu now
    exact getNextModel_mem MODELS mi lu now (by unfold MODELS; simp)
  · intro mi lu now j hj hav
    unfold getNextModel
    cases hscan : scanAvail MODELS lu now mi 0 MODELS.length with
    | some r =>
      obtain ⟨j', hj'1, hj'2, hj'3, hj'4, hj'5, hj'6⟩ :=
        scanAvail_some MODELS lu now mi MODELS.length 0 r.1 r.2
          (by rw [hscan])
      refine ⟨j', by omega, hj'3 ▸ hj'4, hj'3, hj'6, ?_⟩
      intro j'' hj''
      exact hj'5 j'' (Nat.zero_le _) hj''
    | none =>
      exact absurd hav
        (scanAvail_none MODELS lu now mi MODELS.length 0 hscan j
          (Nat.zero_le _) (by omega))
  · intro mi lu now hnone
    unfold getNextModel
    cases hscan : scanAvail MODELS lu now mi 0 MODELS.length with
    | some r =>
      obtain ⟨j', hj'1, hj'2, hj'3, hj'4, _, _⟩ :=
        scanAvail_some MODELS lu now mi MODELS.length 0 r.1 r.2
          (by rw [hscan])
      exact absurd (hj'3 ▸ hj'4) (hnone j' (by omega))
    | none =>
      intro m' hm'
      exact bestSoonest_min lu now "gemini-2.5-flash"
        ["gemini-2.5-flash-lite", "gemini-3-flash"] m' hm'

/-- C9 witness: from a fresh cooldown map at a large `now`, the first
rotation slot is available and selected, and the cursor advances. -/
theorem c9_selection_total_witness :
    ∃ j', j' < MODELS.length ∧
      PER_MODEL_GAP_MS ≤ 100000 -
        luVal [] (MODELS.getD ((0 + j') % MODELS.length) "") ∧
      (getNextModel MODELS 0 [] 100000).1 =
        MODELS.getD ((0 + j') % MODELS.length) "" ∧
      (getNextModel MODELS 0 [] 100000).2 =
        ((0 + j') % MODELS.length + 1) % MODELS.length ∧
      ∀ j'', j'' < j' →
        ¬(PER_MODEL_GAP_MS ≤ 100000 -
          luVal [] (MODELS.getD ((0 + j'') % MODELS.length) "")) :=
  c9_selection_total.2.1 0 [] 100000 0 (by decide) (by decide)

/-! ## C5: throttling fallback -/

/-- C5: the worker never performs more than two fetches in one call.  On
a 429 first response (with credentials, preferences and a non-empty
uncached set), the selected model's effective last-use is pushed to
`now + 30000` in the final state; if some other pool member has an
effective last-use not in the future, a different model is selected and
exactly one retry is sent with it (two fetches total, the alternative's
last-use stamped `now`).  With a single-model pool the call fails with
the all-throttled error after exactly one fetch. -/
theorem c5_throttle_fallback :
    (∀ (models : List String) (st : BgState) (now : Int)
       (apiKey : Option String) (videos : List Video) (preferences : String)
       (transport : Nat → FetchResult),
      (handleScoreRequestWith models st now apiKey videos preferences
        transport).2.2 ≤ 2) ∧
    (∀ (st : BgState) (now : Int) (apiKey : Option String)
       (videos : List Video) (preferences : String)
       (transport : Nat → FetchResult) (errText : String) (body : Body),
      preferences ≠ "" → apiKey.getD "" ≠ "" →
      (splitCached st.scoreCache preferences videos 0).2.1 ≠ [] →
      transport 0 = .success 429 errText body →
      mget (handleScoreRequest st now apiKey videos preferences
          transport).2.1.modelLastUsed
        (getNextModel MODELS st.modelIndex st.modelLastUsed now).1 =
        some (now + 30000) ∧
      ((∃ m' ∈ MODELS,
          m' ≠ (getNextModel MODELS st.modelIndex st.modelLastUsed now).1 ∧
          luVal st.modelLastUsed m' ≤ now) →
        ∃ alt ∈ MODELS,
          alt ≠ (getNextModel MODELS st.modelIndex st.modelLastUsed now).1 ∧
          (handleScoreRequest st now apiKey videos preferences
            transport).2.2 = 2 ∧
          mget (handleScoreRequest st now apiKey videos preferences
            transport).2.1.modelLastUsed alt = some now)) ∧
    (∀ (m : String) (st : BgState) (now : Int) (apiKey : Option String)
       (videos : List Video) (preferences : String)
       (transport : Nat → FetchResult) (errText : String) (body : Body),
      preferences ≠ "" → apiKey.getD "" ≠ "" →
      (splitCached st.scoreCache preferences videos 0).2.1 ≠ [] →
      transport 0 = .success 429 errText body →
      (handleScoreRequestWith [m] st now apiKey videos preferences
        transport).1 = .error "API error 429 (all models rate-limited)" ∧
      (handleScoreRequestWith [m] st now apiKey videos preferences
        transport).2.2 = 1) := by
  refine ⟨handle_fetch_le_two, ?_, ?_⟩
  · intro st now apiKey videos preferences transport errText body
      hp hk hunc htp
    have hemp : (splitCached st.scoreCache preferences videos 0).2.1.isEmpty
        = false := by
      rw [List.isEmpty_eq_false]; exact hunc
    rw [show handleScoreRequest st now apiKey videos preferences transport =
      handleScoreRequestWith MODELS st now apiKey videos preferences transport
      from rfl]
    unfold handleScoreRequestWith
    rw [if_neg hp, if_neg hk]
    simp only [hemp, Bool.false_eq_true, if_false, htp]
    rw [show respOk 429 = false from rfl]
    simp only [Bool.false_eq_true, if_false]
    simp only [if_true]
    simp only [logErr_modelIndex, logErr_modelLastUsed, logErr_scoreCache]
    set sel := getNextModel MODELS st.modelIndex st.modelLastUsed now
      with hsel
    set lu3 := mset (mset st.modelLastUsed sel.1 now) sel.1 (now + 30000)
      with hlu3
    set alt2 := getNextModel MODELS sel.2 lu3 now with halt2
    have hpen : mget lu3 sel.1 = some (now + 30000) := by
      rw [hlu3]; exact mget_mset_self _ _ _
    constructor
    · by_cases halt : alt2.1 = sel.1
      · rw [if_neg (not_not_intro halt)]
        exact hpen
      · rw [if_pos halt]
        cases t1 : transport 1 with
        | failure msg =>
          simp only [logErr_modelLastUsed]
          rw [mget_mset_ne _ _ _ _ halt]
          exact hpen
        | success s2 e2 b2 =>
          by_cases hok2 : respOk s2 = true
          · simp only [hok2, if_true]
            rw [decodeAndFinish_lu]
            rw [mget_mset_ne _ _ _ _ halt]
            exact hpen
          · have hok2' : respOk s2 = false := by simpa using hok2
            simp only [hok2', Bool.false_eq_true, if_false,
              logErr_modelLastUsed]
            rw [mget_mset_ne _ _ _ _ halt]
            exact hpen
    · rintro ⟨m', hm'1, hm'2, hm'3⟩
      have hne : alt2.1 ≠ sel.1 := by
        rw [halt2]
        refine getNextModel_ne MODELS sel.2 lu3 now sel.1 ?_ ?_
        · rw [show luVal lu3 sel.1 = now + 30000 from by
            unfold luVal; rw [hpen]; rfl]
          unfold PER_MODEL_GAP_MS
          omega
        · refine ⟨m', hm'1, hm'2, ?_⟩
          rw [show luVal lu3 m' = luVal st.modelLastUsed m' from by
            unfold luVal
            rw [hlu3, mget_mset_ne _ _ _ _ (fun h => hm'2 h.symm),
              mget_mset_ne _ _ _ _ (fun h => hm'2 h.symm)]]
          rw [show luVal lu3 sel.1 = now + 30000 from by
            unfold luVal; rw [hpen]; rfl]
          omega
      refine ⟨alt2.1, ?_, hne, ?_, ?_⟩
      · rw [halt2]
        exact getNextModel_mem MODELS sel.2 lu3 now (by unfold MODELS; simp)
      · rw [if_pos hne]
        cases t1 : transport 1 with
        | failure msg => rfl
        | success s2 e2 b2 =>
          by_cases hok2 : respOk s2 = true
          · simp only [hok2, if_true]
            rw [decodeAndFinish_count]
          · have hok2' : respOk s2 = false := by simpa using hok2
            simp only [hok2', Bool.false_eq_true, if_false]
      · rw [if_pos hne]
        cases t1 : transport 1 with
        | failure msg =>
          simp only [logErr_modelLastUsed]
          exact mget_mset_self _ _ _
        | success s2 e2 b2 =>
          by_cases hok2 : respOk s2 = true
          · simp only [hok2, if_true]
            rw [decodeAndFinish_lu]
            exact mget_mset_self _ _ _
          · have hok2' : respOk s2 = false := by simpa using hok2
            simp only [hok2', Bool.false_eq_true, if_false,
              logErr_modelLastUsed]
            exact mget_mset_self _ _ _
  · intro m st now apiKey videos preferences transport errText body
      hp hk hunc htp
    have hemp : (splitCached st.scoreCache preferences videos 0).2.1.isEmpty
        = false := by
      rw [List.isEmpty_eq_false]; exact hunc
    unfold handleScoreRequestWith
    rw [if_neg hp, if_neg hk]
    simp only [hemp, Bool.false_eq_true, if_false, htp]
    rw [show respOk 429 = false from rfl]
    simp only [Bool.false_eq_true, if_false]
    simp only [if_true]
    simp only [logErr_modelIndex, logErr_modelLastUsed]
    have halt : (getNextModel [m]
        (getNextModel [m] st.modelIndex st.modelLastUsed now).2
        (mset (mset st.modelLastUsed
          (getNextModel [m] st.modelIndex st.modelLastUsed now).1 now)
          (getNextModel [m] st.modelIndex st.modelLastUsed now).1
          (now + 30000)) now).1 =
        (getNextModel [m] st.modelIndex st.modelLastUsed now).1 := by
      rw [getNextModel_singleton, getNextModel_singleton]
    rw [if_neg (not_not_intro halt)]
    exact ⟨rfl, rfl⟩

/-- C5 witness: a single video, no cache, first response 429, second
response OK — the penalty is recorded and a different model performs the
single retry. -/
theorem c5_throttle_fallback_witness :
    mget (handleScoreRequest ⟨[], 0, [], []⟩ 100000 (some "k") [⟨"t", "c"⟩]
        "p" (fun n => if n = 0 then .success 429 "limit" .noText
          else .success 200 "" (.arr [0.5]))).2.1.modelLastUsed
      (getNextModel MODELS 0 [] 100000).1 = some (100000 + 30000) ∧
    ∃ alt ∈ MODELS, alt ≠ (getNextModel MODELS 0 [] 100000).1 ∧
      (handleScoreRequest ⟨[], 0, [], []⟩ 100000 (some "k") [⟨"t", "c"⟩]
        "p" (fun n => if n = 0 then .success 429 "limit" .noText
          else .success 200 "" (.arr [0.5]))).2.2 = 2 ∧
      mget (handleScoreRequest ⟨[], 0, [], []⟩ 100000 (some "k") [⟨"t", "c"⟩]
        "p" (fun n => if n = 0 then .success 429 "limit" .noText
          else .success 200 "" (.arr [0.5]))).2.1.modelLastUsed alt =
        some 100000 := by
  have h := c5_throttle_fallback.2.1 ⟨[], 0, [], []⟩ 100000 (some "k")
    [⟨"t", "c"⟩] "p"
    (fun n => if n = 0 then .success 429 "limit" .noText
      else .success 200 "" (.arr [0.5])) "limit" .noText
    (by decide) (by decide) (by decide) rfl
  refine ⟨h.1, ?_⟩
  refine h.2 ⟨"gemini-2.5-flash-lite", ?_, ?_, ?_⟩
  · unfold MODELS; simp
  · decide
  · decide

/-! ## C2: cache idempotence -/

/-- C2: after a call that resolved with scores, re-scoring the same batch
under the same preferences finds every cache key present (the uncached
split is empty): the second call performs zero fetches, leaves the worker
state untouched, and immediately returns per item exactly the value the
first call left in the cache. -/
theorem c2_cache_idempotent (st st1 : BgState) (now now2 : Int)
    (apiKey apiKey2 : Option String) (videos : List Video)
    (preferences : String) (transport transport2 : Nat → FetchResult)
    (res : List (Option Rat)) (n : Nat)
    (h1 : handleScoreRequest st now apiKey videos preferences transport =
      (.scores res, st1, n))
    (hp : preferences ≠ "") (hk2 : apiKey2.getD "" ≠ "") :
    (splitCached st1.scoreCache preferences videos 0).2.1 = [] ∧
    handleScoreRequest st1 now2 apiKey2 videos preferences transport2 =
      (.scores (videos.map fun v => mget st1.scoreCache
        (cacheKey v preferences)), st1, 0) := by
  have hkeys := handle_scores_cache_keys MODELS st now apiKey videos
    preferences transport res st1 n h1
  have hunc : (splitCached st1.scoreCache preferences videos 0).2.1 = [] := by
    rw [splitCached_unc_eq]
    rw [List.filter_eq_nil]
    intro v hv
    have := hkeys v hv
    cases hmm : mget st1.scoreCache (cacheKey v preferences)
    · rw [hmm] at this; exact absurd this (by simp)
    · simp [hmm]
  refine ⟨hunc, ?_⟩
  unfold handleScoreRequest handleScoreRequestWith
  rw [if_neg hp, if_neg hk2]
  simp only [hunc, List.isEmpty_nil, if_true, splitCached_res_eq]

/-- C2 witness: a batch of one video scored once (cached as the clamped
0.7), then re-scored with a transport that would fail — the second call
never reaches the network and returns the cached value. -/
theorem c2_cache_idempotent_witness :
    handleScoreRequest ⟨[("t|c|p", clamp 0.7)], 1,
        [("gemini-2.5-flash", 100000)], []⟩ 200000 (some "k") [⟨"t", "c"⟩]
      "p" (fun _ => .failure "no network") =
      (.scores [mget [("t|c|p", clamp 0.7)] (cacheKey ⟨"t", "c"⟩ "p")],
       ⟨[("t|c|p", clamp 0.7)], 1, [("gemini-2.5-flash", 100000)], []⟩, 0) := by
  have h1 : handleScoreRequest ⟨[], 0, [], []⟩ 100000 (some "k") [⟨"t", "c"⟩]
      "p" (fun _ => .success 200 "" (.arr [0.7])) =
      (.scores [some (clamp 0.7)],
       ⟨[("t|c|p", clamp 0.7)], 1, [("gemini-2.5-flash", 100000)], []⟩, 1) :=
    rfl
  have h2 := c2_cache_idempotent ⟨[], 0, [], []⟩
    ⟨[("t|c|p", clamp 0.7)], 1, [("gemini-2.5-flash", 100000)], []⟩
    100000 200000 (some "k") (some "k") [⟨"t", "c"⟩] "p"
    (fun _ => .success 200 "" (.arr [0.7])) (fun _ => .failure "no network")
    [some (clamp 0.7)] 1 h1 (by decide) (by decide)
  exact h2.2

/-! ## C6: clamping and in-place merge on decode success -/

/-- C6: on decode success every decoded value is clamped to the unit
interval before being written to the cache, and the returned array has
one entry per input video in the caller's ordering — cached scores at
their original indices, newly scored (clamped) values at theirs; starting
from a cache whose values are all in `[0,1]`, the resulting cache and all
reported scores stay in `[0,1]`.  Concretely, decoding `[1.4, -0.3]`
stores and reports `1` and `0`. -/
theorem c6_clamped_merge :
    (∀ (st : BgState) (now : Int) (apiKey : Option String)
       (videos : List Video) (preferences : String)
       (transport : Nat → FetchResult) (status : Nat) (errText : String)
       (xs : List Rat),
      preferences ≠ "" → apiKey.getD "" ≠ "" →
      (splitCached st.scoreCache preferences videos 0).2.1 ≠ [] →
      transport 0 = .success status errText (.arr xs) →
      respOk status = true →
      xs.length = (splitCached st.scoreCache preferences videos 0).2.1.length →
      ∃ (R : List (Option Rat)) (C : List (String × Rat)) (st' : BgState),
        handleScoreRequest st now apiKey videos preferences transport =
          (.scores R, st', 1) ∧
        st'.scoreCache = C ∧
        R.length = videos.length ∧
        (∀ i0 v s, videos.get? i0 = some v →
          mget st.scoreCache (cacheKey v preferences) = some s →
          R.get? i0 = some (some s)) ∧
        (∀ k idx x,
          (splitCached st.scoreCache preferences videos 0).2.2.get? k =
            some idx →
          xs.get? k = some x → R.get? idx = some (some (clamp x))) ∧
        ((∀ q ∈ st.scoreCache, 0 ≤ q.2 ∧ q.2 ≤ 1) →
          (∀ q ∈ C, 0 ≤ q.2 ∧ q.2 ≤ 1) ∧
          (∀ o ∈ R, ∀ y : Rat, o = some y → 0 ≤ y ∧ y ≤ 1))) ∧
    handleScoreRequest ⟨[], 0, [], []⟩ 100000 (some "k")
      [⟨"t1", "c1"⟩, ⟨"t2", "c2"⟩] "p"
      (fun _ => .success 200 "" (.arr [1.4, -0.3])) =
      (.scores [some (clamp 1.4), some (clamp (-0.3))],
       ⟨[("t1|c1|p", clamp 1.4), ("t2|c2|p", clamp (-0.3))], 1,
        [("gemini-2.5-flash", 100000)], []⟩, 1) ∧
    clamp 1.4 = 1 ∧ clamp (-0.3) = 0 := by
  refine ⟨?_, rfl, ?_, ?_⟩
  · intro st now apiKey videos preferences transport status errText xs
      hp hk hunc htp hok hlen
    rw [show handleScoreRequest st now apiKey videos preferences transport =
      handleScoreRequestWith MODELS st now apiKey videos preferences transport
      from rfl,
      handle_ok_eq MODELS st now apiKey videos preferences transport status
        errText (.arr xs) hp hk hunc htp hok]
    rw [show decodeAndFinish
        (BgState.mk st.scoreCache
          (getNextModel MODELS st.modelIndex st.modelLastUsed now).2
          (mset st.modelLastUsed
            (getNextModel MODELS st.modelIndex st.modelLastUsed now).1 now)
          st.errorLog) now preferences
        (splitCached st.scoreCache preferences videos 0).2.1
        (splitCached st.scoreCache preferences videos 0).2.2
        (splitCached st.scoreCache preferences videos 0).1 (.arr xs) 1 =
      (.scores (applyScores preferences
          (splitCached st.scoreCache preferences videos 0).2.1 xs
          (splitCached st.scoreCache preferences videos 0).2.2 st.scoreCache
          (splitCached st.scoreCache preferences videos 0).1).2,
       BgState.mk (applyScores preferences
          (splitCached st.scoreCache preferences videos 0).2.1 xs
          (splitCached st.scoreCache preferences videos 0).2.2 st.scoreCache
          (splitCached st.scoreCache preferences videos 0).1).1
         (getNextModel MODELS st.modelIndex st.modelLastUsed now).2
         (mset st.modelLastUsed
           (getNextModel MODELS st.modelIndex st.modelLastUsed now).1 now)
         st.errorLog, 1) from by simp [decodeAndFinish, hlen]]
    refine ⟨_, _, _, rfl, rfl, ?_, ?_, ?_, ?_⟩
    · rw [applyScores_res_length, splitCached_res_eq, List.length_map]
    · intro i0 v s hv hs
      have hni : i0 ∉ (splitCached st.scoreCache preferences videos 0).2.2 := by
        intro hmem
        obtain ⟨k, hk2⟩ := List.mem_iff_get?.1 hmem
        obtain ⟨v', hv1, hv2, _, hv4⟩ :=
          splitCached_idx_spec st.scoreCache preferences videos 0 k i0 hk2
        rw [Nat.sub_zero] at hv2
        rw [hv] at hv2
        injection hv2 with hv2
        rw [← hv2] at hv4
        rw [hv4] at hs
        exact Option.noConfusion hs
      rw [applyScores_res_untouched preferences _ _ _ _ _ i0 hni]
      rw [splitCached_res_eq, List.get?_map, hv]
      simp [hs]
    · intro k idx x hidx hx
      have hklt : k < (splitCached st.scoreCache preferences videos 0).2.1.length := by
        have := List.get?_eq_some.1 hidx
        obtain ⟨hlt, -⟩ := this
        rw [splitCached_len_eq] at hlt
        exact hlt
      have hil : idx < (splitCached st.scoreCache preferences videos 0).1.length := by
        obtain ⟨v', hv1, hv2, hv3, hv4⟩ :=
          splitCached_idx_spec st.scoreCache preferences videos 0 k idx hidx
        rw [Nat.sub_zero] at hv2
        have := List.get?_eq_some.1 hv2
        obtain ⟨hlt, -⟩ := this
        rw [splitCached_res_eq, List.length_map]
        exact hlt
      exact applyScores_res_at preferences _ _ _ _ _ k idx x
        (splitCached_idx_pairwise st.scoreCache preferences videos 0)
        hklt hx hidx hil
    · intro hold
      constructor
      · intro q hq
        rcases applyScores_cache_values preferences _ _ _ _ _ q hq with
          ⟨p, hp1, hp2⟩ | ⟨x, hx⟩
        · rw [hp2]; exact hold p hp1
        · rw [hx]; exact clamp_mem_unit x
      · intro o ho y hy
        rcases applyScores_res_values preferences _ _ _ _ _ o ho with
          h1 | ⟨x, hx⟩
        · rw [splitCached_res_eq] at h1
          obtain ⟨v, hv1, hv2⟩ := List.mem_map.1 h1
          rw [hy] at hv2
          obtain ⟨p, hp1, hp2⟩ := mget_mem st.scoreCache _ y hv2
          rw [← hp2]
          exact hold p hp1
        · rw [hy] at hx
          injection hx with hx
          rw [hx]
          exact clamp_mem_unit x
  · norm_num [clamp, min_def, max_def]
  · norm_num [clamp, min_def, max_def]

/-- C6 witness: the general merge statement instantiated on a two-video
batch with one video already cached and a response `[1.4]` for the
remaining one. -/
theorem c6_clamped_merge_witness :
    ∃ (R : List (Option Rat)) (C : List (String × Rat)) (st' : BgState),
      handleScoreRequest ⟨[("t1|c1|p", 1/2)], 0, [], []⟩ 100000 (some "k")
        [⟨"t1", "c1"⟩, ⟨"t2", "c2"⟩] "p"
        (fun _ => .success 200 "" (.arr [1.4])) = (.scores R, st', 1) ∧
      st'.scoreCache = C ∧
      R.length = 2 ∧
      (∀ i0 v s, [Video.mk "t1" "c1", Video.mk "t2" "c2"].get? i0 = some v →
        mget [("t1|c1|p", (1/2 : Rat))] (cacheKey v "p") = some s →
        R.get? i0 = some (some s)) ∧
      (∀ k idx x,
        (splitCached [("t1|c1|p", (1/2 : Rat))] "p"
          [Video.mk "t1" "c1", Video.mk "t2" "c2"] 0).2.2.get? k = some idx →
        ([1.4] : List Rat).get? k = some x →
        R.get? idx = some (some (clamp x))) ∧
      ((∀ q ∈ [("t1|c1|p", (1/2 : Rat))], 0 ≤ q.2 ∧ q.2 ≤ 1) →
        (∀ q ∈ C, 0 ≤ q.2 ∧ q.2 ≤ 1) ∧
        (∀ o ∈ R, ∀ y : Rat, o = some y → 0 ≤ y ∧ y ≤ 1)) := by
  have h := c6_clamped_merge.1 ⟨[("t1|c1|p", 1/2)], 0, [], []⟩ 100000
    (some "k") [⟨"t1", "c1"⟩, ⟨"t2", "c2"⟩] "p"
    (fun _ => .success 200 "" (.arr [1.4])) 200 "" [1.4]
    (by decide) (by decide) (by decide) rfl (by decide) (by decide)
  exact h

/-! ## Lemmas: the error path of `processVideos` -/

/-- If some unscored parseable item exists, the parseable set is
nonempty. -/
theorem parseable_nonempty_of_unscored (st : CState)
    (h : (unscoredVideosOf st).isEmpty = false) :
    ((st.items.filter fun it => it.video.isSome).isEmpty) = false := by
  rw [List.isEmpty_eq_false] at h ⊢
  obtain ⟨v, hv⟩ := List.exists_mem_of_ne_nil _ h
  obtain ⟨it, hit, hvid⟩ := List.mem_filterMap.1 hv
  obtain ⟨hmem, hu⟩ := List.mem_filter.1 hit
  refine List.ne_nil_of_mem (List.mem_filter.2 ⟨hmem, ?_⟩)
  simp only [isUnscoredVideo, Bool.and_eq_true] at hu
  exact hu.1

/-- `applyPendingState` on a submitted (parseable, unscored) item:
opacity forced to `"0"`, marker `"pending"`, everything else kept. -/
theorem applyPendingState_unscored (st : CState) (j : Nat) (it : CItem)
    (h : st.items.get? j = some it) (hu : isUnscoredVideo it = true) :
    (applyPendingState st).items.get? j =
      some ⟨it.video, ⟨"0", it.elem.display, "opacity 0.3s", "pending",
        it.elem.ytcScored, it.elem.hoverListeners⟩, it.score⟩ := by
  rw [List.get?_eq_getElem?] at h ⊢
  simp [applyPendingState, List.getElem?_map, h, hu]

/-- `applyPendingState` leaves a non-submitted item untouched. -/
theorem applyPendingState_notUnscored (st : CState) (j : Nat) (it : CItem)
    (h : st.items.get? j = some it) (hu : isUnscoredVideo it = false) :
    (applyPendingState st).items.get? j = some it := by
  rw [List.get?_eq_getElem?] at h ⊢
  simp [applyPendingState, List.getElem?_map, h, hu]

/-- `revertPending` on a submitted item: opacity, display and marker
cleared, everything else kept. -/
theorem revertPending_unscored (l : List CItem) (j : Nat) (it : CItem)
    (h : l.get? j = some it) (hu : isUnscoredVideo it = true) :
    (revertPending l).get? j =
      some ⟨it.video, ⟨"", "", it.elem.transitionStyle, "",
        it.elem.ytcScored, it.elem.hoverListeners⟩, it.score⟩ := by
  rw [List.get?_eq_getElem?] at h ⊢
  simp [revertPending, List.getElem?_map, h, hu]

/-- `revertPending` leaves a non-submitted item untouched. -/
theorem revertPending_notUnscored (l : List CItem) (j : Nat) (it : CItem)
    (h : l.get? j = some it) (hu : isUnscoredVideo it = false) :
    (revertPending l).get? j = some it := by
  rw [List.get?_eq_getElem?] at h ⊢
  simp [revertPending, List.getElem?_map, h, hu]

/-- Under the normal dispatch conditions, a failed batch leaves exactly
the reverted state and a single dispatch effect. -/
theorem processVideos_error_eq (st : CState) (now : Int) (msg : String)
    (hen : st.filteringEnabled = true)
    (hpne : st.currentPreferences ≠ "")
    (hune : (unscoredVideosOf st).isEmpty = false)
    (hprog : st.scoringInProgress = false)
    (hcool : st.lastErrorTime = 0 ∨ 60000 ≤ now - st.lastErrorTime) :
    processVideos st now (.error msg) =
      (errorResultState (applyPendingState st) now,
       [.dispatchBatch (unscoredVideosOf st) st.currentPreferences]) := by
  have h1 := parseable_nonempty_of_unscored st hune
  have hcool' : (st.lastErrorTime ≠ 0 && decide (now - st.lastErrorTime < 60000))
      = false := by
    rcases hcool with h | h
    · simp [h]
    · have h' : ¬(now - st.lastErrorTime < 60000) := not_lt.2 h
      simp [h']
  unfold processVideos
  simp only [hen, Bool.not_true, Bool.false_eq_true, if_false, h1, hpne,
    decide_eq_true_eq, hune, Bool.or_self, hprog, hcool', decide_False,
    Bool.false_or, if_true]

/-! ## C1: batch failure atomicity -/

/-- C1 counterexample: an OK response whose body decodes to an empty text.
The batch fails and nothing is cached, but the error log is left
completely unchanged — the failure is *not* logged (the code returns
`'Empty response from Gemini'` without calling `logError`), refuting the
claim's "the failure is logged" for this decode-failure case. -/
theorem c1_unlogged_counterexample :
    handleScoreRequest ⟨[], 0, [], []⟩ 100000 (some "k") [⟨"t", "c"⟩] "p"
      (fun _ => .success 200 "" .noText) =
      (.error "Empty response from Gemini",
       ⟨[], 1, [("gemini-2.5-flash", 100000)], []⟩, 1) := by
  rfl

/-- C1 (amended): if the service response fails decoding or yields a
score array whose length differs from the number of uncached items, the
whole batch fails: the worker returns an error after exactly one fetch,
no score from that response is written to the cache, and the failure is
appended to the error log in every decode-failure case *except* the
empty-response case (which only returns the error).  On the content side,
an error response marks no item scored, stores no score, reverts every
submitted item's pending visual state to fully visible, leaves all other
items untouched and records the failure time. -/
theorem c1_failed_batch_atomic :
    (∀ (st : BgState) (now : Int) (apiKey : Option String)
       (videos : List Video) (preferences : String)
       (transport : Nat → FetchResult) (status : Nat) (errText : String)
       (body : Body),
      preferences ≠ "" → apiKey.getD "" ≠ "" →
      (splitCached st.scoreCache preferences videos 0).2.1 ≠ [] →
      transport 0 = .success status errText body →
      respOk status = true →
      decodeFails body (splitCached st.scoreCache preferences videos 0).2.1.length →
      ∃ msg st',
        handleScoreRequest st now apiKey videos preferences transport =
          (.error msg, st', 1) ∧
        st'.scoreCache = st.scoreCache ∧
        (body ≠ .noText →
          ∃ e, st'.errorLog =
            st.errorLog.drop (st.errorLog.length - 9) ++ [e])) ∧
    (∀ (st : CState) (now : Int) (msg : String),
      st.filteringEnabled = true → st.currentPreferences ≠ "" →
      (unscoredVideosOf st).isEmpty = false →
      st.scoringInProgress = false →
      (st.lastErrorTime = 0 ∨ 60000 ≤ now - st.lastErrorTime) →
      (processVideos st now (.error msg)).2 =
        [.dispatchBatch (unscoredVideosOf st) st.currentPreferences] ∧
      (processVideos st now (.error msg)).1.lastErrorTime = now ∧
      (processVideos st now (.error msg)).1.scoringInProgress = false ∧
      (∀ j it, st.items.get? j = some it → isUnscoredVideo it = true →
        (processVideos st now (.error msg)).1.items.get? j =
          some ⟨it.video, ⟨"", "", "opacity 0.3s", "", it.elem.ytcScored,
            it.elem.hoverListeners⟩, it.score⟩) ∧
      (∀ j it, st.items.get? j = some it → isUnscoredVideo it = false →
        (processVideos st now (.error msg)).1.items.get? j = some it) ∧
      (∀ j it, st.items.get? j = some it →
        ((processVideos st now (.error msg)).1.items.get? j).map
          (fun x => x.score) = some it.score ∧
        ((processVideos st now (.error msg)).1.items.get? j).map
          (fun x => x.elem.ytcScored) = some it.elem.ytcScored)) := by
  constructor
  · intro st now apiKey videos preferences transport status errText body
      hp hk hunc htp hok hfail
    rw [show handleScoreRequest st now apiKey videos preferences transport =
      handleScoreRequestWith MODELS st now apiKey videos preferences transport
      from rfl,
      handle_ok_eq MODELS st now apiKey videos preferences transport status
        errText body hp hk hunc htp hok]
    cases body with
    | noText =>
      exact ⟨"Empty response from Gemini", _, rfl, rfl, fun h => absurd rfl h⟩
    | parseFail m =>
      refine ⟨m, _, rfl, rfl,
        fun _ => ⟨⟨now, "Parse error", none, m.take 500⟩, ?_⟩⟩
      simp [decodeAndFinish, logErr]
    | nonArray =>
      refine ⟨"Score count mismatch from LLM", _, rfl, rfl, fun _ =>
        ⟨⟨now, "Score mismatch", none,
          ("Got undefined scores for " ++
            toString (splitCached st.scoreCache preferences videos 0).2.1.length
            ++ " videos").take 500⟩, ?_⟩⟩
      simp [decodeAndFinish, logErr]
    | arr xs =>
      have hne : xs.length ≠
          (splitCached st.scoreCache preferences videos 0).2.1.length := hfail
      refine ⟨"Score count mismatch from LLM",
        logErr (BgState.mk st.scoreCache
          (getNextModel MODELS st.modelIndex st.modelLastUsed now).2
          (mset st.modelLastUsed
            (getNextModel MODELS st.modelIndex st.modelLastUsed now).1 now)
          st.errorLog) now "Score mismatch" none
          ("Got " ++ toString xs.length ++ " scores for " ++
            toString (splitCached st.scoreCache preferences videos 0).2.1.length
            ++ " videos"), ?_, ?_, fun _ =>
        ⟨⟨now, "Score mismatch", none,
          ("Got " ++ toString xs.length ++ " scores for " ++
            toString (splitCached st.scoreCache preferences videos 0).2.1.length
            ++ " videos").take 500⟩, ?_⟩⟩
      · simp [decodeAndFinish, hne]
      · simp [logErr]
      · simp [logErr]
  · intro st now msg hen hpne hune hprog hcool
    rw [processVideos_error_eq st now msg hen hpne hune hprog hcool]
    refine ⟨rfl, rfl, rfl, ?_, ?_, ?_⟩
    · intro j it h hu
      have hp1 := applyPendingState_unscored st j it h hu
      have hu1 : isUnscoredVideo ⟨it.video, ⟨"0", it.elem.display,
          "opacity 0.3s", "pending", it.elem.ytcScored,
          it.elem.hoverListeners⟩, it.score⟩ = true := hu
      have hp2 := revertPending_unscored _ j _ hp1 hu1
      exact hp2
    · intro j it h hu
      have hp1 := applyPendingState_notUnscored st j it h hu
      exact revertPending_notUnscored _ j it hp1 hu
    · intro j it h
      cases hu : isUnscoredVideo it with
      | true =>
        have hp1 := applyPendingState_unscored st j it h hu
        have hu1 : isUnscoredVideo ⟨it.video, ⟨"0", it.elem.display,
            "opacity 0.3s", "pending", it.elem.ytcScored,
            it.elem.hoverListeners⟩, it.score⟩ = true := hu
        have hp2 := revertPending_unscored _ j _ hp1 hu1
        show ((revertPending (applyPendingState st).items).get? j).map _ = _ ∧
          ((revertPending (applyPendingState st).items).get? j).map _ = _
        rw [hp2]
        exact ⟨rfl, rfl⟩
      | false =>
        have hp1 := applyPendingState_notUnscored st j it h hu
        have hp2 := revertPending_notUnscored _ j it hp1 hu
        show ((revertPending (applyPendingState st).items).get? j).map _ = _ ∧
          ((revertPending (applyPendingState st).items).get? j).map _ = _
        rw [hp2]
        exact ⟨rfl, rfl⟩

/-- C1 witness: background part at a concrete count-mismatch response
(two scores for one video), content part at a concrete one-item state. -/
theorem c1_failed_batch_atomic_witness :
    (∃ msg st',
      handleScoreRequest ⟨[], 0, [], []⟩ 100000 (some "k") [⟨"t", "c"⟩] "p"
        (fun _ => .success 200 "" (.arr [0.5, 0.5])) =
        (.error msg, st', 1) ∧
      st'.scoreCache = [] ∧
      (Body.arr [0.5, 0.5] ≠ .noText →
        ∃ e, st'.errorLog = ([] : List LogEntry).drop (0 - 9) ++ [e])) ∧
    (processVideos ⟨[⟨some ⟨"t", "c"⟩, ⟨"", "", "", "", false, false⟩, none⟩],
        "p", true, 3, false, 0⟩ 500 (.error "boom")).2 =
      [.dispatchBatch [⟨"t", "c"⟩] "p"] := by
  constructor
  · exact c1_failed_batch_atomic.1 ⟨[], 0, [], []⟩ 100000 (some "k")
      [⟨"t", "c"⟩] "p" (fun _ => .success 200 "" (.arr [0.5, 0.5])) 200 ""
      (.arr [0.5, 0.5]) (by decide) (by decide) (by decide) rfl (by decide)
      (by unfold decodeFails; decide)
  · exact (c1_failed_batch_atomic.2 ⟨[⟨some ⟨"t", "c"⟩,
      ⟨"", "", "", "", false, false⟩, none⟩], "p", true, 3, false, 0⟩ 500
      "boom" rfl (by decide) (by decide) rfl (Or.inl rfl)).1

/-! ## C8: disable resets visibility; re-enable does not recompute -/

/-- C8 counterexample: one `Scored` item (stored score `0.1`, below the
level-3 hide threshold `0.2`, so a recomputation would hide it).
Disabling resets it to fully visible; re-enabling returns with an empty
effect trace and the item still fully visible (`ytcFilter = ""`), i.e.
its visibility is *not* recomputed from its stored score — a
recomputation would have produced the hidden class. -/
theorem c8_reenable_counterexample :
    onEnabledChange ((onEnabledChange ⟨[⟨some ⟨"t", "c"⟩,
        ⟨"", "none", "", "hidden", true, false⟩, some (some 0.1)⟩],
        "p", true, 3, false, 0⟩ false 0 (.error "")).1) true 0 (.error "") =
      (⟨[⟨some ⟨"t", "c"⟩, ⟨"", "", "", "", true, false⟩, some (some 0.1)⟩],
        "p", true, 3, false, 0⟩, []) ∧
    (applyFilter (getThresholds 3) ⟨"", "", "", "", true, false⟩
      (some 0.1)).ytcFilter = "hidden" := by
  exact ⟨rfl, by norm_num [applyFilter, jlt, getThresholds, STRICTNESS_MAP]⟩

/-- C8 (amended): disabling filtering forces every item fully visible
(opacity and display cleared, filter marker cleared) with no dispatch, no
recomputation and no lifecycle change (scores and scored markers
survive); re-enabling runs the processing path, which leaves every
already-`Scored` item — visual state included — completely untouched, and
dispatches (if anything) only the parseable unscored items. -/
theorem c8_disable_enable (st : CState) (now : Int) (resp : ScoreResult) :
    (onEnabledChange st false now resp).2 = [] ∧
    (onEnabledChange st false now resp).1.filteringEnabled = false ∧
    (∀ j it, st.items.get? j = some it →
      (onEnabledChange st false now resp).1.items.get? j =
        some ⟨it.video, ⟨"", "", it.elem.transitionStyle, "",
          it.elem.ytcScored, false⟩, it.score⟩) ∧
    (∀ j it, st.items.get? j = some it → it.elem.ytcScored = true →
      (onEnabledChange st true now resp).1.items.get? j = some it) ∧
    (∀ vids pr,
      Effect.dispatchBatch vids pr ∈ (onEnabledChange st true now resp).2 →
      vids = unscoredVideosOf { st with filteringEnabled := true }) := by
  refine ⟨rfl, rfl, ?_, ?_, ?_⟩
  · intro j it h
    show (resetAllFilters _).items.get? j = _
    rw [List.get?_eq_getElem?] at h ⊢
    simp [resetAllFilters, List.getElem?_map, h]
  · intro j it h hs
    exact processVideos_preserves_scored { st with filteringEnabled := true }
      now resp j it h hs
  · intro vids pr h
    exact (processVideos_dispatch_payload { st with filteringEnabled := true }
      now resp vids pr h).1

/-- C8 witness: the amended behaviour on a one-item state holding a
`Scored` item. -/
theorem c8_disable_enable_witness :
    (onEnabledChange ⟨[⟨some ⟨"t", "c"⟩, ⟨"", "none", "", "hidden", true,
        false⟩, some (some 0.1)⟩], "p", true, 3, false, 0⟩ false 0
      (.error "")).1.items.get? 0 =
      some ⟨some ⟨"t", "c"⟩, ⟨"", "", "", "", true, false⟩,
        some (some 0.1)⟩ :=
  (c8_disable_enable ⟨[⟨some ⟨"t", "c"⟩, ⟨"", "none", "", "hidden", true,
    false⟩, some (some 0.1)⟩], "p", true, 3, false, 0⟩ 0
    (.error "")).2.2.1 0 _ rfl

/-- C4 witness: the general partition evaluated at level 3, score 0.35,
on a fresh element. -/
theorem c4_monotone_partition_witness :
    (getThresholds 3).hide ≤ (0.35 : Rat) ∧ (0.35 : Rat) < (getThresholds 3).dim ∧
    (applyFilter (getThresholds 3) ElemState.fresh (some 0.35)).ytcFilter
      = "dimmed" :=
  ⟨by norm_num [getThresholds, STRICTNESS_MAP],
   by norm_num [getThresholds, STRICTNESS_MAP],
   ((c4_monotone_partition.1 3 0.35 ElemState.fresh).2.1
     (by norm_num [getThresholds, STRICTNESS_MAP])
     (by norm_num [getThresholds, STRICTNESS_MAP]))⟩

end YtControl
